import Mathlib

/-!
# ecsobserver: the task filter

A shallow embedding of `taskFilter.filter`
(`extension/observer/ecsobserver/filter.go`) and the properties of its three
phases: running every matcher, attaching the results in `matcherOrders`, and
sorting the touched tasks.

Conventions of the embedding.

* A `*taskAnnotated` is modelled by the position of its task in the caller's
  slice: the slice holds pairwise distinct, non-nil pointers, so the heap of
  task objects is the list itself and a pointer is an index into it.
* Go `int` indices carried by match results are `Int`; indexing a slice outside
  `0 <= i < len` panics, which is the `none` outcome of `filter`.
* A Go `map` is an association list; the order in which one `range` statement
  visits it is a separate argument (`rangeOrder`), since Go leaves it open.
* A Go `error` is given by its entries as `multierr` sees them: `nil` has none,
  a plain error is its own single entry, an aggregate has its parts. The error
  built by `multierr.AppendInto` is the list of the entries appended, in the
  order of the calls.
* `AddMatchedContainer` is declared outside the file. It is modelled from the
  spec (one record per sub-unit, never replaced) and from the comment on line 60
  (the targets of a sub-unit matched again are merged into its record); how
  targets are merged (`MergeTargets`) is left open.
* `logger.Debug` only observes and is left out.
-/

set_option linter.unusedSectionVars false

namespace ecsobserver

/-! ## Data model -/

/-- One matched container: the index of its task in the task list, its index in
the container list of the task definition, and the targets produced for it by
the matcher (type `τ`, kept abstract). -/
structure matchedContainer (τ : Type) where
  TaskIndex : Int
  ContainerIndex : Int
  Targets : τ
deriving DecidableEq, Repr

/-- The result of applying one matcher to the task list. -/
structure matchResult (τ : Type) where
  Tasks : List Int
  Containers : List (matchedContainer τ)
deriving DecidableEq, Repr

/-- A task (type `σ`, kept abstract) together with its matched containers. -/
structure taskAnnotated (σ τ : Type) where
  Task : σ
  Matched : List (matchedContainer τ)
deriving DecidableEq, Repr

/-- The method `MergeTargets` of a matched container, declared outside
`filter.go`: `merge old new` are the targets of a record that held `old` after
the targets `new` of a newly matched container were merged into it. What the
merge does is left open; every statement holds for every merge. -/
class MergeTargets (τ : Type) where
  merge : τ → τ → τ

/-- The filter: matchers grouped by type (`map[matcherType][]targetMatcher`). -/
structure taskFilter (matcherType targetMatcher : Type) where
  matchers : List (matcherType × List targetMatcher)

/-- Package-level declarations that `filter` calls and that live in other files
of the package: the priority list `matcherOrders()` and the function
`matchContainers(tasks, matcher, index)`, which returns a result (never nil,
line 45) together with an error: no entry when it is nil, one when it is a
plain error, several when it is an aggregate. They are parameters of the
embedding. -/
structure Decls (matcherType targetMatcher σ τ Err : Type) where
  matcherOrders : List matcherType
  matchContainers : List (taskAnnotated σ τ) → targetMatcher → Nat → matchResult τ × List Err

/-- The order in which the two `range` statements over maps visit their map in
one call: `matchers` for `range f.matchers` (line 41) and `matchedTasks` for
`range matchedTasks` (line 74). Each is applied to the association list of the
map. -/
structure rangeOrder (matcherType targetMatcher : Type) where
  matchers : List (matcherType × List targetMatcher) → List (matcherType × List targetMatcher)
  matchedTasks : List Int → List Int

/-- A range order is admissible when it visits every entry exactly once. -/
def rangeOrder.valid {matcherType targetMatcher : Type}
    (ord : rangeOrder matcherType targetMatcher) : Prop :=
  (∀ l, (ord.matchers l).Perm l) ∧ (∀ l, (ord.matchedTasks l).Perm l)

/-- The order that visits the entries as listed. -/
def rangeOrder.asListed (matcherType targetMatcher : Type) : rangeOrder matcherType targetMatcher :=
  ⟨id, id⟩

/-- The order that visits the entries last to first. -/
def rangeOrder.backwards (matcherType targetMatcher : Type) : rangeOrder matcherType targetMatcher :=
  ⟨List.reverse, List.reverse⟩

/-- What a call leaves behind: the returned slice of task pointers, the returned
error, and the caller's task objects after the call. -/
structure filterResult (σ τ Err : Type) where
  sortedTasks : List Int
  merr : List Err
  tasks : List (taskAnnotated σ τ)
deriving DecidableEq, Repr

/-- The state of the attach loop: the set `matchedTasks` (keys in the order they
were first stored) and the task objects. -/
structure mergeState (σ τ : Type) where
  matchedTasks : List Int
  tasks : List (taskAnnotated σ τ)
deriving DecidableEq, Repr

section defs

variable {matcherType targetMatcher σ τ Err : Type} [DecidableEq matcherType] [MergeTargets τ]

/-! ## Helpers of the Go runtime and libraries -/

/-- Slice indexing `s[i]` with a Go `int`: `none` is the out-of-range panic. -/
def index? {α : Type} (s : List α) (i : Int) : Option α :=
  if 0 ≤ i then s[i.toNat]? else none

/-- Storing `m[k] = struct{}{}` in a map used as a set. -/
def setAdd (m : List Int) (k : Int) : List Int :=
  if k ∈ m then m else m ++ [k]

/-- Library call `multierr.AppendInto(&merr, err)`: a nil `err` leaves `merr`
alone; otherwise the entries of `err` come after the ones already there, an
`err` that is itself an aggregate being flattened into its entries. -/
def AppendInto (merr : List Err) (err : List Err) : List Err :=
  merr ++ err

/-- Library call `sort.Ints`. -/
def sortInts (l : List Int) : List Int :=
  l.insertionSort (fun a b => a ≤ b)

/-- Library call `sort.Slice(task.Matched, less)` with `less` comparing
`ContainerIndex` (lines 82-84). The library gives some sorted rearrangement;
this is the one that keeps equal keys in their order, and it is the only one
when the keys are distinct. -/
def sortMatched (m : List (matchedContainer τ)) : List (matchedContainer τ) :=
  m.insertionSort (fun a b => a.ContainerIndex ≤ b.ContainerIndex)

/-- Modelled from the spec: the search of `AddMatchedContainer` (declared
outside `filter.go`) through the matched list. Per the spec (4.2, and the
invariant of section 3) a container whose sub-unit identity is already in the
list gets no second entry and does not replace the record that is there; per
the comment on line 60 of `filter.go` its targets are merged into that record;
a container that is not yet in the list is appended. -/
def addMatched :
    List (matchedContainer τ) → matchedContainer τ → List (matchedContainer τ)
  | [], container => [container]
  | old :: rest, container =>
    if old.ContainerIndex = container.ContainerIndex then
      { old with Targets := MergeTargets.merge old.Targets container.Targets } :: rest
    else old :: addMatched rest container

/-- Modelled from the spec: `taskAnnotated.AddMatchedContainer` is a method
declared outside `filter.go`. It changes the matched list of the task as
`addMatched` says and nothing else of the task. -/
def taskAnnotated.AddMatchedContainer (t : taskAnnotated σ τ) (container : matchedContainer τ) :
    taskAnnotated σ τ :=
  { t with Matched := addMatched t.Matched container }

/-! ## Phase 1: run the matchers (lines 38-57) -/

/-- The inner loop (lines 42-56) over the matchers of one type, from
configuration index `index` on. The state is the map `matched` and `merr`. -/
def runMatchers (P : Decls matcherType targetMatcher σ τ Err) (tasks : List (taskAnnotated σ τ))
    (tpe : matcherType) :
    List targetMatcher → Nat → (matcherType → List (matchResult τ)) × List Err →
      (matcherType → List (matchResult τ)) × List Err
  | [], _, st => st
  | matcher :: rest, index, (matched, merr) =>
    let (res, err) := P.matchContainers tasks matcher index
    let merr := AppendInto merr err
    let matched := Function.update matched tpe (matched tpe ++ [res])
    runMatchers P tasks tpe rest (index + 1) (matched, merr)

/-- The outer loop (lines 41-57) over the entries of `f.matchers` in the order
they are visited. -/
def runTypes (P : Decls matcherType targetMatcher σ τ Err) (tasks : List (taskAnnotated σ τ)) :
    List (matcherType × List targetMatcher) → (matcherType → List (matchResult τ)) × List Err →
      (matcherType → List (matchResult τ)) × List Err
  | [], st => st
  | (tpe, matchers) :: rest, st => runTypes P tasks rest (runMatchers P tasks tpe matchers 0 st)

/-! ## Phase 2: attach the results in `matcherOrders` (lines 59-70) -/

/-- Lines 64-68: the containers of one result. -/
def attachContainers : List (matchedContainer τ) → mergeState σ τ → Option (mergeState σ τ)
  | [], st => some st
  | container :: rest, st =>
    let matchedTasks := setAdd st.matchedTasks container.TaskIndex
    match index? st.tasks container.TaskIndex with
    | none => none
    | some task =>
      attachContainers rest
        ⟨matchedTasks, st.tasks.set container.TaskIndex.toNat (task.AddMatchedContainer container)⟩

/-- Lines 63-69: the results of one type. -/
def attachResults : List (matchResult τ) → mergeState σ τ → Option (mergeState σ τ)
  | [], st => some st
  | res :: rest, st => (attachContainers res.Containers st).bind (attachResults rest)

/-- Lines 62-70: the types of `matcherOrders()`. -/
def attachTypes (matched : matcherType → List (matchResult τ)) :
    List matcherType → mergeState σ τ → Option (mergeState σ τ)
  | [], st => some st
  | tpe :: rest, st => (attachResults (matched tpe) st).bind (attachTypes matched rest)

/-! ## Phase 3: sort (lines 72-87) -/

/-- Lines 79-86: sort the matched list of each listed task and collect it. -/
def sortTasks : List Int → List (taskAnnotated σ τ) → List Int →
    Option (List (taskAnnotated σ τ) × List Int)
  | [], tasks, sortedTasks => some (tasks, sortedTasks)
  | i :: rest, tasks, sortedTasks =>
    match index? tasks i with
    | none => none
    | some task =>
      sortTasks rest (tasks.set i.toNat { task with Matched := sortMatched task.Matched })
        (sortedTasks ++ [i])

/-- The function `taskFilter.filter` (lines 37-88). -/
def taskFilter.filter (P : Decls matcherType targetMatcher σ τ Err)
    (ord : rangeOrder matcherType targetMatcher) (f : taskFilter matcherType targetMatcher)
    (tasks : List (taskAnnotated σ τ)) : Option (filterResult σ τ Err) :=
  let (matched, merr) := runTypes P tasks (ord.matchers f.matchers) (fun _ => [], [])
  match attachTypes matched P.matcherOrders ⟨[], tasks⟩ with
  | none => none
  | some st =>
    let taskIndexes := sortInts (ord.matchedTasks st.matchedTasks)
    match sortTasks taskIndexes st.tasks [] with
    | none => none
    | some (tasks, sortedTasks) => some ⟨sortedTasks, merr, tasks⟩

/-- The task objects the returned pointers refer to, in the returned order. -/
def filterResult.returned (out : filterResult σ τ Err) : List (taskAnnotated σ τ) :=
  out.sortedTasks.filterMap (index? out.tasks)

/-! ## Vocabulary of the specification -/

/-- One matcher invocation: the matcher type, the configuration index within the
type, and what `matchContainers` returned for it. -/
structure invocation (matcherType τ Err : Type) where
  tpe : matcherType
  index : Nat
  res : matchResult τ
  err : List Err
deriving DecidableEq, Repr

/-- The invocations of the matchers of one type, numbered from `index`. -/
def invocationsOf (P : Decls matcherType targetMatcher σ τ Err) (tasks : List (taskAnnotated σ τ))
    (tpe : matcherType) : List targetMatcher → Nat → List (invocation matcherType τ Err)
  | [], _ => []
  | matcher :: rest, index =>
    ⟨tpe, index, (P.matchContainers tasks matcher index).1,
      (P.matchContainers tasks matcher index).2⟩ :: invocationsOf P tasks tpe rest (index + 1)

/-- Every configured (type, configuration index) pair with its outcome on
`tasks`, entry by entry of the matcher map. -/
def invocations (P : Decls matcherType targetMatcher σ τ Err) (tasks : List (taskAnnotated σ τ))
    (matchers : List (matcherType × List targetMatcher)) : List (invocation matcherType τ Err) :=
  matchers.flatMap (fun e => invocationsOf P tasks e.1 e.2 0)

/-- The results of the invocations of type `t`, in the order of `invs`. -/
def resultsOfType (invs : List (invocation matcherType τ Err)) (t : matcherType) :
    List (matchResult τ) :=
  (invs.filter (fun i => i.tpe = t)).map (fun i => i.res)

/-- The containers of all results, by type in the order of `orders`, within a
type in the order of `invs`, within a result in the order of the result. -/
def mergeSeq (orders : List matcherType) (invs : List (invocation matcherType τ Err)) :
    List (matchedContainer τ) :=
  orders.flatMap (fun t => (resultsOfType invs t).flatMap (fun res => res.Containers))

/-- The containers of `cs` that belong to the task at position `n`. -/
def containersOf (n : Nat) (cs : List (matchedContainer τ)) : List (matchedContainer τ) :=
  cs.filter (fun c => c.TaskIndex = (n : Int))

/-- Attaching a sequence of containers to one task, first to last. -/
def attachAll (t : taskAnnotated σ τ) (cs : List (matchedContainer τ)) : taskAnnotated σ τ :=
  cs.foldl taskAnnotated.AddMatchedContainer t

/-- The set `matchedTasks` after storing the task index of every container. -/
def touched (m : List Int) (cs : List (matchedContainer τ)) : List Int :=
  cs.foldl (fun m c => setAdd m c.TaskIndex) m

/-- A task with its matched list sorted. -/
def taskAnnotated.sorted (t : taskAnnotated σ τ) : taskAnnotated σ τ :=
  { t with Matched := sortMatched t.Matched }

/-- The record `r` after the targets of the containers `cs` were merged into
it, first to last. -/
def mergeAll (r : matchedContainer τ) (cs : List (matchedContainer τ)) : matchedContainer τ :=
  { r with Targets := cs.foldl (fun acc c => MergeTargets.merge acc c.Targets) r.Targets }

/-- The record that a sequence of containers of one sub-unit leaves: the first
of them, with the targets of the later ones merged in. -/
def mergedRecord : List (matchedContainer τ) → Option (matchedContainer τ)
  | [] => none
  | c :: rest => some (mergeAll c rest)

/-- The record of sub-unit `k` in a matched list, if it has one. -/
def recordFor (k : Int) (m : List (matchedContainer τ)) : Option (matchedContainer τ) :=
  m.find? (fun r => r.ContainerIndex == k)

/-- The record of sub-unit `k` of task `i` after a call. -/
def filterResult.record (out : filterResult σ τ Err) (i k : Int) : Option (matchedContainer τ) :=
  (index? out.tasks i).bind (fun t => recordFor k t.Matched)

/-- The containers one call attaches, in the order it attaches them. -/
def attachSeq (P : Decls matcherType targetMatcher σ τ Err)
    (ord : rangeOrder matcherType targetMatcher) (f : taskFilter matcherType targetMatcher)
    (tasks : List (taskAnnotated σ τ)) : List (matchedContainer τ) :=
  mergeSeq P.matcherOrders (invocations P tasks (ord.matchers f.matchers))

/-- Every container of `cs` names a task of a list of length `n`. -/
def inBounds (n : Nat) (cs : List (matchedContainer τ)) : Prop :=
  ∀ c ∈ cs, 0 ≤ c.TaskIndex ∧ c.TaskIndex < (n : Int)

/-- Modelled from the spec: `matcherOrders()` is declared outside `filter.go`.
The spec (sections 3 and 6) makes it a fixed total priority order over the
matcher types: every matcher type is listed, once. -/
def Decls.ordersTotal (P : Decls matcherType targetMatcher σ τ Err) : Prop :=
  P.matcherOrders.Nodup ∧ ∀ t, t ∈ P.matcherOrders

/-- All tasks come without matched containers, as freshly annotated. -/
def fresh (tasks : List (taskAnnotated σ τ)) : Prop :=
  ∀ t ∈ tasks, t.Matched = []

/-- The matcher map has one entry per matcher type. -/
def taskFilter.wellFormed (f : taskFilter matcherType targetMatcher) : Prop :=
  (f.matchers.map Prod.fst).Nodup

/-! ## The function with a record of its calls

The same loops, each carrying a log: one entry per call of `matchContainers`
(line 43) and one per call of `AddMatchedContainer` (line 67). -/

/-- One call `matchContainers(tasks, matcher, index)`, made for a matcher
configured under type `tpe`. -/
structure matcherCall (matcherType targetMatcher σ τ : Type) where
  tpe : matcherType
  tasks : List (taskAnnotated σ τ)
  matcher : targetMatcher
  index : Nat

/-- What one run did: the `matchContainers` calls in the order made, the map
`matched` after line 57, the containers passed to `AddMatchedContainer` in the
order of the calls, and the outcome of the run. -/
structure filterTrace (matcherType targetMatcher σ τ Err : Type) where
  calls : List (matcherCall matcherType targetMatcher σ τ)
  matched : matcherType → List (matchResult τ)
  attached : List (matchedContainer τ)
  result : Option (filterResult σ τ Err)

/-- The loop `runMatchers` with the log of `matchContainers` calls. -/
def runMatchersLogged (P : Decls matcherType targetMatcher σ τ Err)
    (tasks : List (taskAnnotated σ τ)) (tpe : matcherType) :
    List targetMatcher → Nat →
      ((matcherType → List (matchResult τ)) × List Err) ×
        List (matcherCall matcherType targetMatcher σ τ) →
      ((matcherType → List (matchResult τ)) × List Err) ×
        List (matcherCall matcherType targetMatcher σ τ)
  | [], _, st => st
  | matcher :: rest, index, ((matched, merr), calls) =>
    let calls := calls ++ [⟨tpe, tasks, matcher, index⟩]
    let (res, err) := P.matchContainers tasks matcher index
    let merr := AppendInto merr err
    let matched := Function.update matched tpe (matched tpe ++ [res])
    runMatchersLogged P tasks tpe rest (index + 1) ((matched, merr), calls)

/-- The loop `runTypes` with the log of `matchContainers` calls. -/
def runTypesLogged (P : Decls matcherType targetMatcher σ τ Err)
    (tasks : List (taskAnnotated σ τ)) :
    List (matcherType × List targetMatcher) →
      ((matcherType → List (matchResult τ)) × List Err) ×
        List (matcherCall matcherType targetMatcher σ τ) →
      ((matcherType → List (matchResult τ)) × List Err) ×
        List (matcherCall matcherType targetMatcher σ τ)
  | [], st => st
  | (tpe, matchers) :: rest, st =>
    runTypesLogged P tasks rest (runMatchersLogged P tasks tpe matchers 0 st)

/-- The loop `attachContainers` with the log of `AddMatchedContainer` calls; the
log survives a panic. -/
def attachContainersLogged :
    List (matchedContainer τ) → mergeState σ τ × List (matchedContainer τ) →
      Option (mergeState σ τ) × List (matchedContainer τ)
  | [], (st, log) => (some st, log)
  | container :: rest, (st, log) =>
    let matchedTasks := setAdd st.matchedTasks container.TaskIndex
    match index? st.tasks container.TaskIndex with
    | none => (none, log)
    | some task =>
      attachContainersLogged rest
        (⟨matchedTasks,
            st.tasks.set container.TaskIndex.toNat (task.AddMatchedContainer container)⟩,
          log ++ [container])

/-- The loop `attachResults` with the log. -/
def attachResultsLogged :
    List (matchResult τ) → mergeState σ τ × List (matchedContainer τ) →
      Option (mergeState σ τ) × List (matchedContainer τ)
  | [], (st, log) => (some st, log)
  | res :: rest, s =>
    match attachContainersLogged res.Containers s with
    | (none, log) => (none, log)
    | (some st, log) => attachResultsLogged rest (st, log)

/-- The loop `attachTypes` with the log. -/
def attachTypesLogged (matched : matcherType → List (matchResult τ)) :
    List matcherType → mergeState σ τ × List (matchedContainer τ) →
      Option (mergeState σ τ) × List (matchedContainer τ)
  | [], (st, log) => (some st, log)
  | tpe :: rest, s =>
    match attachResultsLogged (matched tpe) s with
    | (none, log) => (none, log)
    | (some st, log) => attachTypesLogged matched rest (st, log)

/-- The function `taskFilter.filter` with the record of its calls. -/
def taskFilter.filterLogged (P : Decls matcherType targetMatcher σ τ Err)
    (ord : rangeOrder matcherType targetMatcher) (f : taskFilter matcherType targetMatcher)
    (tasks : List (taskAnnotated σ τ)) : filterTrace matcherType targetMatcher σ τ Err :=
  let ((matched, merr), calls) :=
    runTypesLogged P tasks (ord.matchers f.matchers) ((fun _ => [], []), [])
  match attachTypesLogged matched P.matcherOrders (⟨[], tasks⟩, []) with
  | (none, attached) => ⟨calls, matched, attached, none⟩
  | (some st, attached) =>
    let taskIndexes := sortInts (ord.matchedTasks st.matchedTasks)
    match sortTasks taskIndexes st.tasks [] with
    | none => ⟨calls, matched, attached, none⟩
    | some (tasks, sortedTasks) => ⟨calls, matched, attached, some ⟨sortedTasks, merr, tasks⟩⟩

/-- The task lookups of the attach loop (line 66): `none` when one of them is
out of range, otherwise the state after line 70. -/
def mergePhase (P : Decls matcherType targetMatcher σ τ Err)
    (ord : rangeOrder matcherType targetMatcher) (f : taskFilter matcherType targetMatcher)
    (tasks : List (taskAnnotated σ τ)) : Option (mergeState σ τ) :=
  attachTypes (runTypes P tasks (ord.matchers f.matchers) (fun _ => [], [])).1 P.matcherOrders
    ⟨[], tasks⟩

/-- The task lookups of the sort loop (line 80), run on the state the attach
loop left: `none` when one of them is out of range. -/
def sortPhase (ord : rangeOrder matcherType targetMatcher) (st : mergeState σ τ) :
    Option (List (taskAnnotated σ τ) × List Int) :=
  sortTasks (sortInts (ord.matchedTasks st.matchedTasks)) st.tasks []

/-- The calls the configuration asks for: every matcher of every entry of the
matcher map, once, on `tasks`, with its configuration index. -/
def configuredCalls (tasks : List (taskAnnotated σ τ))
    (matchers : List (matcherType × List targetMatcher)) :
    List (matcherCall matcherType targetMatcher σ τ) :=
  matchers.flatMap (fun e => e.2.enum.map (fun im => ⟨e.1, tasks, im.2, im.1⟩))

/-- The matchers configured under type `tpe` (none when the map has no such
key). -/
def taskFilter.matchersOf (f : taskFilter matcherType targetMatcher) (tpe : matcherType) :
    List targetMatcher :=
  (f.matchers.lookup tpe).getD []

/-- The merge order in the words of the specification: the containers of the
results by type in the order of `matcherOrders()`, within a type by ascending
configuration index, within a result in the order of the result. -/
def mergeOrder (P : Decls matcherType targetMatcher σ τ Err)
    (f : taskFilter matcherType targetMatcher) (tasks : List (taskAnnotated σ τ)) :
    List (matchedContainer τ) :=
  P.matcherOrders.flatMap (fun tpe =>
    (f.matchersOf tpe).enum.flatMap
      (fun im => (P.matchContainers tasks im.2 im.1).1.Containers))

end defs

/-! ## Worked configurations -/

section example_defs

/-- Three matcher types for the examples. -/
inductive exType where
  | name
  | port
  | label
deriving DecidableEq, Repr

/-- Modelled from the spec: the merge of the examples, where targets are lists
of names. Following the comment on line 60 of `filter.go` (merge in the new
targets that are not already matched), the new targets that are not yet among
the recorded ones are added after them; the recorded ones stay. -/
instance exMergeTargets : MergeTargets (List String) where
  merge old new := new.foldl (fun acc x => if acc.contains x then acc else acc ++ [x]) old

/-- Two tasks, nothing matched yet: T0 (containers 0 and 1) and T1
(container 0). -/
def exTasks : List (taskAnnotated String (List String)) :=
  [⟨"T0", []⟩, ⟨"T1", []⟩]

/-- Priority name, port, label; a matcher of the examples is the pair of the
result and the error it returns. -/
def exDecls : Decls exType (matchResult (List String) × List String) String (List String) String :=
  { matcherOrders := [exType.name, exType.port, exType.label]
    matchContainers := fun _ matcher _ => matcher }

/-- The name matcher matches container 1 of T0; the port matcher matches
container 0 of T0 and container 0 of T1. Both succeed. -/
def exFilter : taskFilter exType (matchResult (List String) × List String) :=
  ⟨[(exType.port, [(⟨[0, 1], [⟨0, 0, ["port"]⟩, ⟨1, 0, ["port"]⟩]⟩, [])]),
    (exType.name, [(⟨[0], [⟨0, 1, ["name"]⟩]⟩, [])])]⟩

/-- What `filter` returns for `exFilter` on `exTasks`. -/
def exOut : filterResult String (List String) String :=
  ⟨[0, 1], [],
    [⟨"T0", [⟨0, 0, ["port"]⟩, ⟨0, 1, ["name"]⟩]⟩, ⟨"T1", [⟨1, 0, ["port"]⟩]⟩]⟩

/-- As `exFilter`, but the name matcher fails and matches nothing. -/
def exFailing : taskFilter exType (matchResult (List String) × List String) :=
  ⟨[(exType.port, [(⟨[0, 1], [⟨0, 0, ["port"]⟩, ⟨1, 0, ["port"]⟩]⟩, [])]),
    (exType.name, [(⟨[], []⟩, ["name failed"])])]⟩

/-- What `filter` returns for `exFailing` on `exTasks`. -/
def exFailingOut : filterResult String (List String) String :=
  ⟨[0, 1], ["name failed"], [⟨"T0", [⟨0, 0, ["port"]⟩]⟩, ⟨"T1", [⟨1, 0, ["port"]⟩]⟩]⟩

/-- As `exFilter`, but the name matcher also reports an error next to the same
result. -/
def exFilterErr : taskFilter exType (matchResult (List String) × List String) :=
  ⟨[(exType.port, [(⟨[0, 1], [⟨0, 0, ["port"]⟩, ⟨1, 0, ["port"]⟩]⟩, [])]),
    (exType.name, [(⟨[0], [⟨0, 1, ["name"]⟩]⟩, ["name failed"])])]⟩

/-- Three name matchers, configuration indices 0, 1, 2, all matching container
1 of T0, each with its own targets. -/
def exSameType : taskFilter exType (matchResult (List String) × List String) :=
  ⟨[(exType.name,
      [(⟨[0], [⟨0, 1, ["name-0"]⟩]⟩, []), (⟨[0], [⟨0, 1, ["name-1"]⟩]⟩, []),
        (⟨[0], [⟨0, 1, ["name-2"]⟩]⟩, [])])]⟩

/-- What `filter` returns for `exSameType` on `exTasks`. -/
def exSameTypeOut : filterResult String (List String) String :=
  ⟨[0], [], [⟨"T0", [⟨0, 1, ["name-0", "name-1", "name-2"]⟩]⟩, ⟨"T1", []⟩]⟩

/-- Two name matchers; only the second (index 1) and a port matcher match
container 0 of T1. -/
def exSecond : taskFilter exType (matchResult (List String) × List String) :=
  ⟨[(exType.port, [(⟨[1], [⟨1, 0, ["port"]⟩]⟩, [])]),
    (exType.name,
      [(⟨[0], [⟨0, 1, ["name-0"]⟩]⟩, []), (⟨[1], [⟨1, 0, ["name-1"]⟩]⟩, []),
        (⟨[1], [⟨1, 0, ["name-2"]⟩]⟩, [])])]⟩

/-- What `filter` returns for `exSecond` on `exTasks`. -/
def exSecondOut : filterResult String (List String) String :=
  ⟨[0, 1], [],
    [⟨"T0", [⟨0, 1, ["name-0"]⟩]⟩, ⟨"T1", [⟨1, 0, ["name-1", "name-2", "port"]⟩]⟩]⟩

/-- The port matcher returns a container of a task at index 2, past the end of
`exTasks`. -/
def exOutOfRange : taskFilter exType (matchResult (List String) × List String) :=
  ⟨[(exType.port, [(⟨[2], [⟨0, 0, ["port"]⟩, ⟨2, 0, ["port"]⟩]⟩, [])])]⟩

/-- The name matcher matches nothing and returns an aggregate of two errors,
one for each task it could not read; the port matcher succeeds. -/
def exAggregate : taskFilter exType (matchResult (List String) × List String) :=
  ⟨[(exType.port, [(⟨[0, 1], [⟨0, 0, ["port"]⟩, ⟨1, 0, ["port"]⟩]⟩, [])]),
    (exType.name, [(⟨[], []⟩, ["name: bad label on T0", "name: bad label on T1"])])]⟩

/-- What `filter` returns for `exAggregate` on `exTasks`. -/
def exAggregateOut : filterResult String (List String) String :=
  ⟨[0, 1], ["name: bad label on T0", "name: bad label on T1"],
    [⟨"T0", [⟨0, 0, ["port"]⟩]⟩, ⟨"T1", [⟨1, 0, ["port"]⟩]⟩]⟩

/-- Both matchers fail. -/
def exBothFail : taskFilter exType (matchResult (List String) × List String) :=
  ⟨[(exType.port, [(⟨[], []⟩, ["port failed"])]),
    (exType.name, [(⟨[], []⟩, ["name failed"])])]⟩

/-- All three types match container 1 of T0, each with its own targets. -/
def exThree : taskFilter exType (matchResult (List String) × List String) :=
  ⟨[(exType.name, [(⟨[0], [⟨0, 1, ["name"]⟩]⟩, [])]),
    (exType.port, [(⟨[0], [⟨0, 1, ["port"]⟩]⟩, [])]),
    (exType.label, [(⟨[0], [⟨0, 1, ["label"]⟩]⟩, [])])]⟩

/-- The name matcher matches container 1 of T0; the port and the label matcher
both match container 0 of T0. -/
def exShared : taskFilter exType (matchResult (List String) × List String) :=
  ⟨[(exType.label, [(⟨[0], [⟨0, 0, ["label"]⟩]⟩, [])]),
    (exType.name, [(⟨[0], [⟨0, 1, ["name"]⟩]⟩, [])]),
    (exType.port, [(⟨[0], [⟨0, 0, ["port"]⟩]⟩, [])])]⟩

/-- What `filter` returns for `exShared` on `exTasks`. -/
def exSharedOut : filterResult String (List String) String :=
  ⟨[0], [], [⟨"T0", [⟨0, 0, ["port", "label"]⟩, ⟨0, 1, ["name"]⟩]⟩, ⟨"T1", []⟩]⟩

/-- What `filter` returns for `exThree` on `exTasks`. -/
def exThreeOut : filterResult String (List String) String :=
  ⟨[0], [], [⟨"T0", [⟨0, 1, ["name", "port", "label"]⟩]⟩, ⟨"T1", []⟩]⟩

end example_defs

/-! ## The matcher phase -/

section phase1

variable {matcherType targetMatcher σ τ Err : Type} [DecidableEq matcherType] [MergeTargets τ]

theorem invocationsOf_tpe (P : Decls matcherType targetMatcher σ τ Err)
    (tasks : List (taskAnnotated σ τ)) (tpe : matcherType) (ms : List targetMatcher) (i : Nat) :
    ∀ inv ∈ invocationsOf P tasks tpe ms i, inv.tpe = tpe := by
  induction ms generalizing i with
  | nil => simp [invocationsOf]
  | cons m rest ih =>
    intro inv hinv
    simp only [invocationsOf, List.mem_cons] at hinv
    rcases hinv with h | h
    · rw [h]
    · exact ih _ _ h

theorem resultsOfType_append (a b : List (invocation matcherType τ Err)) (t : matcherType) :
    resultsOfType (a ++ b) t = resultsOfType a t ++ resultsOfType b t := by
  simp [resultsOfType]

theorem resultsOfType_invocationsOf (P : Decls matcherType targetMatcher σ τ Err)
    (tasks : List (taskAnnotated σ τ)) (tpe t : matcherType) (ms : List targetMatcher) (i : Nat) :
    resultsOfType (invocationsOf P tasks tpe ms i) t
      = if t = tpe then (invocationsOf P tasks tpe ms i).map (fun v => v.res) else [] := by
  unfold resultsOfType
  split
  · next h =>
    subst h
    congr 1
    rw [List.filter_eq_self]
    intro v hv
    simpa using invocationsOf_tpe P tasks t ms i v hv
  · next h =>
    have : (invocationsOf P tasks tpe ms i).filter (fun v => decide (v.tpe = t)) = [] := by
      rw [List.filter_eq_nil_iff]
      intro v hv
      have := invocationsOf_tpe P tasks tpe ms i v hv
      simpa [this] using Ne.symm h
    rw [this]; rfl

theorem runMatchers_eq (P : Decls matcherType targetMatcher σ τ Err)
    (tasks : List (taskAnnotated σ τ)) (tpe : matcherType) (ms : List targetMatcher) (i : Nat)
    (matched : matcherType → List (matchResult τ)) (merr : List Err) :
    runMatchers P tasks tpe ms i (matched, merr)
      = (Function.update matched tpe
            (matched tpe ++ (invocationsOf P tasks tpe ms i).map (fun v => v.res)),
          merr ++ (invocationsOf P tasks tpe ms i).flatMap (fun v => v.err)) := by
  induction ms generalizing i matched merr with
  | nil => simp [runMatchers, invocationsOf]
  | cons m rest ih =>
    simp only [runMatchers, invocationsOf]
    rw [ih]
    simp [AppendInto, List.flatMap_cons]

theorem runTypes_eq (P : Decls matcherType targetMatcher σ τ Err)
    (tasks : List (taskAnnotated σ τ)) (l : List (matcherType × List targetMatcher))
    (matched : matcherType → List (matchResult τ)) (merr : List Err) :
    runTypes P tasks l (matched, merr)
      = (fun t => matched t ++ resultsOfType (invocations P tasks l) t,
          merr ++ (invocations P tasks l).flatMap (fun v => v.err)) := by
  induction l generalizing matched merr with
  | nil => simp [runTypes, invocations, resultsOfType]
  | cons e rest ih =>
    obtain ⟨tpe, ms⟩ := e
    simp only [runTypes]
    rw [runMatchers_eq, ih]
    have hinv : invocations P tasks ((tpe, ms) :: rest)
        = invocationsOf P tasks tpe ms 0 ++ invocations P tasks rest := by
      simp [invocations]
    rw [hinv]
    refine Prod.ext ?_ ?_
    · funext t
      simp only [resultsOfType_append, resultsOfType_invocationsOf]
      by_cases h : t = tpe
      · subst h; simp
      · simp [h, Function.update_noteq h]
    · simp [List.flatMap_append]

end phase1

/-! ## The attach phase -/

section phase2

variable {matcherType targetMatcher σ τ Err : Type} [DecidableEq matcherType] [MergeTargets τ]

theorem index?_eq_some {α : Type} (s : List α) (i : Int) (a : α) :
    index? s i = some a ↔ 0 ≤ i ∧ s[i.toNat]? = some a := by
  unfold index?
  split <;> simp [*]

theorem index?_natCast {α : Type} (s : List α) (n : Nat) : index? s (n : Int) = s[n]? := by
  simp [index?]

theorem index?_isSome_iff {α : Type} (s : List α) (i : Int) :
    (index? s i).isSome ↔ 0 ≤ i ∧ i < (s.length : Int) := by
  unfold index?
  split
  · next h =>
    rw [← Option.ne_none_iff_isSome]
    simp only [ne_eq, List.getElem?_eq_none_iff, not_le, h, true_and]
    exact Int.toNat_lt h
  · next h => simp [h]

theorem attachContainers_append (a b : List (matchedContainer τ)) (st : mergeState σ τ) :
    attachContainers (a ++ b) st = (attachContainers a st).bind (attachContainers b) := by
  induction a generalizing st with
  | nil => simp [attachContainers]
  | cons c rest ih =>
    simp only [List.cons_append, attachContainers]
    cases index? st.tasks c.TaskIndex with
    | none => rfl
    | some task => exact ih _

theorem attachResults_eq (rs : List (matchResult τ)) (st : mergeState σ τ) :
    attachResults rs st = attachContainers (rs.flatMap (fun res => res.Containers)) st := by
  induction rs generalizing st with
  | nil => simp [attachResults, attachContainers]
  | cons r rest ih =>
    simp only [attachResults, List.flatMap_cons, attachContainers_append]
    congr 1
    funext st1
    exact ih st1

theorem attachTypes_eq (matched : matcherType → List (matchResult τ)) (orders : List matcherType)
    (st : mergeState σ τ) :
    attachTypes matched orders st
      = attachContainers
          (orders.flatMap (fun t => (matched t).flatMap (fun res => res.Containers))) st := by
  induction orders generalizing st with
  | nil => simp [attachTypes, attachContainers]
  | cons t rest ih =>
    simp only [attachTypes, List.flatMap_cons, attachContainers_append, attachResults_eq]
    congr 1
    funext st1
    exact ih st1

theorem containersOf_cons_self (c : matchedContainer τ) (rest : List (matchedContainer τ))
    (h : 0 ≤ c.TaskIndex) :
    containersOf c.TaskIndex.toNat (c :: rest) = c :: containersOf c.TaskIndex.toNat rest := by
  simp [containersOf, Int.toNat_of_nonneg h]

theorem containersOf_cons_ne (c : matchedContainer τ) (rest : List (matchedContainer τ)) (n : Nat)
    (h : c.TaskIndex.toNat ≠ n) :
    containersOf n (c :: rest) = containersOf n rest := by
  have : c.TaskIndex ≠ (n : Int) := by
    intro hc
    apply h
    rw [hc]
    simp
  simp [containersOf, this]

theorem attachContainers_some (cs : List (matchedContainer τ)) (st st1 : mergeState σ τ)
    (h : attachContainers cs st = some st1) :
    inBounds st.tasks.length cs ∧ st1.matchedTasks = touched st.matchedTasks cs ∧
      st1.tasks.length = st.tasks.length ∧
      ∀ n, st1.tasks[n]? = (st.tasks[n]?).map (fun t => attachAll t (containersOf n cs)) := by
  induction cs generalizing st with
  | nil =>
    simp only [attachContainers, Option.some.injEq] at h
    subst h
    simp [inBounds, touched, attachAll, containersOf]
  | cons c rest ih =>
    simp only [attachContainers] at h
    cases hidx : index? st.tasks c.TaskIndex with
    | none => simp [hidx] at h
    | some task =>
      simp only [hidx] at h
      obtain ⟨hb, hm, hl, ht⟩ := ih _ h
      simp only [List.length_set] at hb hl ht
      have hsome := (index?_isSome_iff st.tasks c.TaskIndex).1 (by simp [hidx])
      obtain ⟨h0, hget⟩ := (index?_eq_some _ _ _).1 hidx
      refine ⟨?_, ?_, hl, ?_⟩
      · intro c1 hc1
        rcases List.mem_cons.1 hc1 with h1 | h1
        · rw [h1]; exact hsome
        · exact hb c1 h1
      · rw [hm]; simp [touched]
      · intro n
        rw [ht n]
        by_cases hn : c.TaskIndex.toNat = n
        · subst hn
          have hlt : c.TaskIndex.toNat < st.tasks.length := (Int.toNat_lt h0).2 hsome.2
          rw [containersOf_cons_self c rest h0, List.getElem?_set_self hlt, hget]
          simp [attachAll]
        · rw [containersOf_cons_ne c rest n hn, List.getElem?_set_ne hn]

theorem attachContainers_isSome (cs : List (matchedContainer τ)) (st : mergeState σ τ)
    (h : inBounds st.tasks.length cs) : (attachContainers cs st).isSome := by
  induction cs generalizing st with
  | nil => simp [attachContainers]
  | cons c rest ih =>
    simp only [attachContainers]
    have hc := h c (List.mem_cons_self _ _)
    have hsome := (index?_isSome_iff st.tasks c.TaskIndex).2 hc
    obtain ⟨task, htask⟩ := Option.isSome_iff_exists.1 hsome
    simp only [htask]
    apply ih
    simp only [List.length_set]
    intro c1 hc1
    exact h c1 (List.mem_cons_of_mem _ hc1)

end phase2

/-! ## The sort phase -/

section phase3

variable {matcherType targetMatcher σ τ Err : Type} [DecidableEq matcherType] [MergeTargets τ]

theorem mem_touched (m : List Int) (cs : List (matchedContainer τ)) (k : Int) :
    k ∈ touched m cs ↔ k ∈ m ∨ ∃ c ∈ cs, c.TaskIndex = k := by
  induction cs generalizing m with
  | nil => simp [touched]
  | cons c rest ih =>
    have hstep : touched m (c :: rest) = touched (setAdd m c.TaskIndex) rest := rfl
    rw [hstep, ih]
    unfold setAdd
    split
    · next hin =>
      constructor
      · rintro (h | ⟨c1, hc1, hk⟩)
        · exact Or.inl h
        · exact Or.inr ⟨c1, List.mem_cons_of_mem _ hc1, hk⟩
      · rintro (h | ⟨c1, hc1, hk⟩)
        · exact Or.inl h
        · rcases List.mem_cons.1 hc1 with h1 | h1
          · subst h1; subst hk; exact Or.inl hin
          · exact Or.inr ⟨c1, h1, hk⟩
    · next hin =>
      constructor
      · rintro (h | ⟨c1, hc1, hk⟩)
        · rcases List.mem_append.1 h with h1 | h1
          · exact Or.inl h1
          · exact Or.inr ⟨c, List.mem_cons_self _ _, (List.mem_singleton.1 h1).symm⟩
        · exact Or.inr ⟨c1, List.mem_cons_of_mem _ hc1, hk⟩
      · rintro (h | ⟨c1, hc1, hk⟩)
        · exact Or.inl (List.mem_append_left _ h)
        · rcases List.mem_cons.1 hc1 with h1 | h1
          · subst h1; subst hk; exact Or.inl (List.mem_append_right _ (List.mem_singleton.2 rfl))
          · exact Or.inr ⟨c1, h1, hk⟩

theorem nodup_touched (m : List Int) (cs : List (matchedContainer τ)) (h : m.Nodup) :
    (touched m cs).Nodup := by
  induction cs generalizing m with
  | nil => simpa [touched] using h
  | cons c rest ih =>
    have hstep : touched m (c :: rest) = touched (setAdd m c.TaskIndex) rest := rfl
    rw [hstep]
    apply ih
    unfold setAdd
    split
    · exact h
    · next hin =>
      rw [List.nodup_append]
      refine ⟨h, List.nodup_singleton _, ?_⟩
      intro a ha hb
      rw [List.mem_singleton] at hb
      subst hb
      exact hin ha

theorem sortInts_perm (l : List Int) : (sortInts l).Perm l :=
  List.perm_insertionSort _ l

theorem sortInts_sorted (l : List Int) : (sortInts l).Sorted (fun a b => a ≤ b) :=
  List.sorted_insertionSort _ l

theorem sortInts_eq_of_perm (l₁ l₂ : List Int) (h : l₁.Perm l₂) : sortInts l₁ = sortInts l₂ :=
  List.eq_of_perm_of_sorted (r := fun a b : Int => a ≤ b)
    (((sortInts_perm l₁).trans h).trans (sortInts_perm l₂).symm)
    (sortInts_sorted l₁) (sortInts_sorted l₂)

theorem sortInts_strict (l : List Int) (h : l.Nodup) :
    (sortInts l).Pairwise (fun a b => a < b) := by
  have hs : (sortInts l).Pairwise (fun a b => a ≤ b) := sortInts_sorted l
  have hn : (sortInts l).Pairwise (fun a b => a ≠ b) := ((sortInts_perm l).nodup_iff).2 h
  exact (hs.and hn).imp (fun h => lt_of_le_of_ne h.1 h.2)

theorem sortMatched_perm (m : List (matchedContainer τ)) : (sortMatched m).Perm m :=
  List.perm_insertionSort _ m

theorem sortMatched_sorted (m : List (matchedContainer τ)) :
    (sortMatched m).Sorted (fun a b => a.ContainerIndex ≤ b.ContainerIndex) := by
  haveI : IsTotal (matchedContainer τ) (fun a b => a.ContainerIndex ≤ b.ContainerIndex) :=
    ⟨fun a b => le_total a.ContainerIndex b.ContainerIndex⟩
  haveI : IsTrans (matchedContainer τ) (fun a b => a.ContainerIndex ≤ b.ContainerIndex) :=
    ⟨fun _ _ _ h1 h2 => le_trans h1 h2⟩
  exact List.sorted_insertionSort _ m

theorem sortMatched_idem (m : List (matchedContainer τ)) :
    sortMatched (sortMatched m) = sortMatched m :=
  List.Sorted.insertionSort_eq (sortMatched_sorted m)

theorem sorted_sorted (t : taskAnnotated σ τ) : t.sorted.sorted = t.sorted := by
  simp [taskAnnotated.sorted, sortMatched_idem]

theorem sortMatched_strict (m : List (matchedContainer τ))
    (h : (m.map (fun r => r.ContainerIndex)).Nodup) :
    ((sortMatched m).map (fun r => r.ContainerIndex)).Pairwise (fun a b => a < b) := by
  have hs : ((sortMatched m).map (fun r => r.ContainerIndex)).Pairwise (fun a b => a ≤ b) :=
    List.pairwise_map.2 (sortMatched_sorted m)
  have hn : ((sortMatched m).map (fun r => r.ContainerIndex)).Pairwise (fun a b => a ≠ b) :=
    ((((sortMatched_perm m).map _).nodup_iff).2 h)
  exact (hs.and hn).imp (fun h => lt_of_le_of_ne h.1 h.2)

theorem sortTasks_some (idxs : List Int) (tasks tasks1 : List (taskAnnotated σ τ))
    (acc acc1 : List Int) (h : sortTasks idxs tasks acc = some (tasks1, acc1)) :
    (∀ i ∈ idxs, 0 ≤ i ∧ i < (tasks.length : Int)) ∧ acc1 = acc ++ idxs ∧
      tasks1.length = tasks.length ∧
      ∀ n : Nat,
        tasks1[n]? = (tasks[n]?).map (fun t => if (n : Int) ∈ idxs then t.sorted else t) := by
  induction idxs generalizing tasks acc with
  | nil =>
    simp only [sortTasks, Option.some.injEq, Prod.mk.injEq] at h
    obtain ⟨h1, h2⟩ := h
    subst h1; subst h2
    simp
  | cons i rest ih =>
    simp only [sortTasks] at h
    cases hidx : index? tasks i with
    | none => simp [hidx] at h
    | some task =>
      simp only [hidx] at h
      obtain ⟨hb, ha, hl, ht⟩ := ih _ _ h
      simp only [List.length_set] at hb hl ht
      have hsome := (index?_isSome_iff tasks i).1 (by simp [hidx])
      obtain ⟨h0, hget⟩ := (index?_eq_some _ _ _).1 hidx
      refine ⟨?_, ?_, hl, ?_⟩
      · intro j hj
        rcases List.mem_cons.1 hj with h1 | h1
        · rw [h1]; exact hsome
        · exact hb j h1
      · rw [ha]; simp
      · intro n
        rw [ht n]
        by_cases hn : i.toNat = n
        · subst hn
          have hlt : i.toNat < tasks.length := (Int.toNat_lt h0).2 hsome.2
          have hcast : ((i.toNat : Nat) : Int) = i := Int.toNat_of_nonneg h0
          rw [List.getElem?_set_self hlt, hget]
          have hsame : task.sorted = { task with Matched := sortMatched task.Matched } := rfl
          simp only [Option.map_some', hcast, List.mem_cons, true_or, if_true, ← hsame]
          split
          · exact congrArg some (sorted_sorted task)
          · rfl
        · have hne : (n : Int) ≠ i := by
            intro hc
            apply hn
            rw [← hc]
            simp
          rw [List.getElem?_set_ne hn]
          simp [hne]

theorem sortTasks_isSome (idxs : List Int) (tasks : List (taskAnnotated σ τ)) (acc : List Int)
    (h : ∀ i ∈ idxs, 0 ≤ i ∧ i < (tasks.length : Int)) : (sortTasks idxs tasks acc).isSome := by
  induction idxs generalizing tasks acc with
  | nil => simp [sortTasks]
  | cons i rest ih =>
    simp only [sortTasks]
    have hsome := (index?_isSome_iff tasks i).2 (h i (List.mem_cons_self _ _))
    obtain ⟨task, htask⟩ := Option.isSome_iff_exists.1 hsome
    simp only [htask]
    apply ih
    simp only [List.length_set]
    intro j hj
    exact h j (List.mem_cons_of_mem _ hj)

end phase3

/-! ## The whole call -/

section whole

variable {matcherType targetMatcher σ τ Err : Type} [DecidableEq matcherType] [MergeTargets τ]

theorem filter_some (P : Decls matcherType targetMatcher σ τ Err)
    (ord : rangeOrder matcherType targetMatcher) (f : taskFilter matcherType targetMatcher)
    (tasks : List (taskAnnotated σ τ)) (out : filterResult σ τ Err)
    (h : taskFilter.filter P ord f tasks = some out) :
    inBounds tasks.length
        (mergeSeq P.matcherOrders (invocations P tasks (ord.matchers f.matchers))) ∧
      out.merr = (invocations P tasks (ord.matchers f.matchers)).flatMap (fun v => v.err) ∧
      out.sortedTasks = sortInts (ord.matchedTasks (touched []
        (mergeSeq P.matcherOrders (invocations P tasks (ord.matchers f.matchers))))) ∧
      out.tasks.length = tasks.length ∧
      ∀ n : Nat, out.tasks[n]? = (tasks[n]?).map (fun t =>
        if (n : Int) ∈ out.sortedTasks then
          (attachAll t (containersOf n
            (mergeSeq P.matcherOrders (invocations P tasks (ord.matchers f.matchers))))).sorted
        else
          attachAll t (containersOf n
            (mergeSeq P.matcherOrders (invocations P tasks (ord.matchers f.matchers))))) := by
  unfold taskFilter.filter at h
  rw [runTypes_eq] at h
  simp only [List.nil_append, attachTypes_eq] at h
  have hseq : (P.matcherOrders.flatMap (fun t =>
      (resultsOfType (invocations P tasks (ord.matchers f.matchers)) t).flatMap
        (fun res => res.Containers)))
      = mergeSeq P.matcherOrders (invocations P tasks (ord.matchers f.matchers)) := rfl
  rw [hseq] at h
  generalize mergeSeq P.matcherOrders (invocations P tasks (ord.matchers f.matchers)) = cs at h ⊢
  cases hatt : attachContainers cs (⟨[], tasks⟩ : mergeState σ τ) with
  | none => simp [hatt] at h
  | some st =>
    simp only [hatt] at h
    obtain ⟨hb, hm, hl, ht⟩ := attachContainers_some cs _ st hatt
    cases hsort : sortTasks (sortInts (ord.matchedTasks st.matchedTasks)) st.tasks [] with
    | none => simp [hsort] at h
    | some res =>
      obtain ⟨tasks1, acc1⟩ := res
      simp only [hsort, Option.some.injEq] at h
      obtain ⟨_, ha, hl1, ht1⟩ := sortTasks_some _ _ _ _ _ hsort
      subst h
      simp only [List.nil_append] at ha
      simp only at hb hm hl ht ⊢
      refine ⟨hb, trivial, ?_, hl1.trans hl, ?_⟩
      · rw [ha, hm]
      · intro n
        rw [ht1 n, ht n, ha]
        cases tasks[n]? with
        | none => rfl
        | some t =>
          simp only [Option.map_some']

theorem filter_isSome (P : Decls matcherType targetMatcher σ τ Err)
    (ord : rangeOrder matcherType targetMatcher) (f : taskFilter matcherType targetMatcher)
    (tasks : List (taskAnnotated σ τ)) (hv : ord.valid)
    (hb : inBounds tasks.length
      (mergeSeq P.matcherOrders (invocations P tasks (ord.matchers f.matchers)))) :
    (taskFilter.filter P ord f tasks).isSome := by
  unfold taskFilter.filter
  rw [runTypes_eq]
  simp only [List.nil_append, attachTypes_eq]
  have hseq : (P.matcherOrders.flatMap (fun t =>
      (resultsOfType (invocations P tasks (ord.matchers f.matchers)) t).flatMap
        (fun res => res.Containers)))
      = mergeSeq P.matcherOrders (invocations P tasks (ord.matchers f.matchers)) := rfl
  rw [hseq]
  generalize mergeSeq P.matcherOrders (invocations P tasks (ord.matchers f.matchers)) = cs at hb ⊢
  obtain ⟨st, hst⟩ := Option.isSome_iff_exists.1
    (attachContainers_isSome cs (⟨[], tasks⟩ : mergeState σ τ) hb)
  simp only [hst]
  obtain ⟨_, hm, hl, _⟩ := attachContainers_some cs _ st hst
  have hidx : ∀ i ∈ sortInts (ord.matchedTasks st.matchedTasks),
      0 ≤ i ∧ i < (st.tasks.length : Int) := by
    intro i hi
    have h1 : i ∈ st.matchedTasks := (hv.2 _).subset ((sortInts_perm _).subset hi)
    rw [hm, mem_touched] at h1
    rcases h1 with h1 | ⟨c, hc, hk⟩
    · simp at h1
    · rw [hl, ← hk]
      exact hb c hc
  obtain ⟨res, hres⟩ := Option.isSome_iff_exists.1 (sortTasks_isSome _ st.tasks [] hidx)
  simp [hres]

end whole

/-! ## Independence of the visiting order of the matcher map -/

section order

variable {matcherType targetMatcher σ τ Err : Type} [DecidableEq matcherType] [MergeTargets τ]

theorem resultsOfType_invocations (P : Decls matcherType targetMatcher σ τ Err)
    (tasks : List (taskAnnotated σ τ)) (l : List (matcherType × List targetMatcher))
    (t : matcherType) :
    resultsOfType (invocations P tasks l) t
      = (l.filter (fun e => e.1 = t)).flatMap
          (fun e => (invocationsOf P tasks e.1 e.2 0).map (fun v => v.res)) := by
  induction l with
  | nil => simp [invocations, resultsOfType]
  | cons e rest ih =>
    have hinv : invocations P tasks (e :: rest)
        = invocationsOf P tasks e.1 e.2 0 ++ invocations P tasks rest := by
      simp [invocations]
    rw [hinv, resultsOfType_append, ih, resultsOfType_invocationsOf]
    by_cases h : e.1 = t
    · simp [h]
    · have h1 : ¬ t = e.1 := fun hc => h hc.symm
      simp [h, h1]

theorem filter_key_length_le (l : List (matcherType × List targetMatcher)) (t : matcherType)
    (h : (l.map Prod.fst).Nodup) : (l.filter (fun e => e.1 = t)).length ≤ 1 := by
  induction l with
  | nil => simp
  | cons e rest ih =>
    rw [List.map_cons, List.nodup_cons] at h
    by_cases he : e.1 = t
    · have hrest : rest.filter (fun e => decide (e.1 = t)) = [] := by
        rw [List.filter_eq_nil_iff]
        intro e1 he1
        have hne : e1.1 ≠ t := by
          intro hc
          apply h.1
          rw [he, ← hc]
          exact List.mem_map_of_mem _ he1
        simpa using hne
      simp [he, hrest]
    · simpa [he] using ih h.2

theorem perm_eq_of_length_le_one {α : Type} (l₁ l₂ : List α) (h : l₁.Perm l₂)
    (hl : l₁.length ≤ 1) : l₁ = l₂ := by
  match l₁, hl with
  | [], _ => exact (List.nil_perm.1 h).symm
  | [a], _ => exact (List.perm_singleton.1 h.symm).symm

theorem resultsOfType_perm (P : Decls matcherType targetMatcher σ τ Err)
    (tasks : List (taskAnnotated σ τ)) (l₁ l₂ : List (matcherType × List targetMatcher))
    (h : l₁.Perm l₂) (hn : (l₂.map Prod.fst).Nodup) (t : matcherType) :
    resultsOfType (invocations P tasks l₁) t = resultsOfType (invocations P tasks l₂) t := by
  rw [resultsOfType_invocations, resultsOfType_invocations]
  have hp : (l₂.filter (fun e => decide (e.1 = t))).Perm (l₁.filter (fun e => decide (e.1 = t))) :=
    (h.filter _).symm
  rw [perm_eq_of_length_le_one _ _ hp (filter_key_length_le l₂ t hn)]

theorem mergeSeq_perm (P : Decls matcherType targetMatcher σ τ Err)
    (tasks : List (taskAnnotated σ τ)) (orders : List matcherType)
    (l₁ l₂ : List (matcherType × List targetMatcher))
    (h : l₁.Perm l₂) (hn : (l₂.map Prod.fst).Nodup) :
    mergeSeq orders (invocations P tasks l₁) = mergeSeq orders (invocations P tasks l₂) := by
  unfold mergeSeq
  congr 1
  funext t
  rw [resultsOfType_perm P tasks l₁ l₂ h hn t]

theorem invocations_perm (P : Decls matcherType targetMatcher σ τ Err)
    (tasks : List (taskAnnotated σ τ)) (l₁ l₂ : List (matcherType × List targetMatcher))
    (h : l₁.Perm l₂) : (invocations P tasks l₁).Perm (invocations P tasks l₂) :=
  List.Perm.flatMap_right _ h

theorem mem_mergeSeq (orders : List matcherType) (invs : List (invocation matcherType τ Err))
    (c : matchedContainer τ) :
    c ∈ mergeSeq orders invs ↔ ∃ v ∈ invs, v.tpe ∈ orders ∧ c ∈ v.res.Containers := by
  simp only [mergeSeq, resultsOfType, List.mem_flatMap, List.mem_map, List.mem_filter,
    decide_eq_true_eq]
  constructor
  · rintro ⟨t, ht, r, ⟨v, ⟨hv, hvt⟩, hr⟩, hc⟩
    exact ⟨v, hv, by rw [hvt]; exact ht, by rw [hr]; exact hc⟩
  · rintro ⟨v, hv, ht, hc⟩
    exact ⟨v.tpe, ht, v.res, ⟨v, ⟨hv, rfl⟩, rfl⟩, hc⟩

end order

/-! ## Attaching under the modelled `AddMatchedContainer` -/

section attach

variable {σ τ : Type} [MergeTargets τ]

theorem recordFor_append (k : Int) (a b : List (matchedContainer τ)) :
    recordFor k (a ++ b) = (recordFor k a).or (recordFor k b) := by
  simp [recordFor, List.find?_append]

theorem recordFor_isSome_iff (k : Int) (m : List (matchedContainer τ)) :
    (recordFor k m).isSome ↔ k ∈ m.map (fun r => r.ContainerIndex) := by
  simp [recordFor, List.find?_isSome]

theorem addMatched_keys (m : List (matchedContainer τ)) (c : matchedContainer τ) :
    (addMatched m c).map (fun r => r.ContainerIndex)
      = if c.ContainerIndex ∈ m.map (fun r => r.ContainerIndex) then
          m.map (fun r => r.ContainerIndex)
        else m.map (fun r => r.ContainerIndex) ++ [c.ContainerIndex] := by
  induction m with
  | nil => simp [addMatched]
  | cons old rest ih =>
    simp only [addMatched]
    by_cases h : old.ContainerIndex = c.ContainerIndex
    · simp [h]
    · have hne : ¬ c.ContainerIndex = old.ContainerIndex := fun hc => h hc.symm
      rw [if_neg h, List.map_cons, ih]
      simp only [List.map_cons, List.mem_cons, hne, false_or]
      by_cases h2 : c.ContainerIndex ∈ rest.map (fun r => r.ContainerIndex)
      · rw [if_pos h2, if_pos h2]
      · rw [if_neg h2, if_neg h2]
        rfl

theorem AddMatchedContainer_keys (t : taskAnnotated σ τ) (c : matchedContainer τ) :
    (t.AddMatchedContainer c).Matched.map (fun r => r.ContainerIndex)
      = if c.ContainerIndex ∈ t.Matched.map (fun r => r.ContainerIndex) then
          t.Matched.map (fun r => r.ContainerIndex)
        else t.Matched.map (fun r => r.ContainerIndex) ++ [c.ContainerIndex] :=
  addMatched_keys t.Matched c

theorem AddMatchedContainer_Task (t : taskAnnotated σ τ) (c : matchedContainer τ) :
    (t.AddMatchedContainer c).Task = t.Task := rfl

theorem recordFor_addMatched (k : Int) (m : List (matchedContainer τ)) (c : matchedContainer τ) :
    recordFor k (addMatched m c)
      = if c.ContainerIndex = k then
          some (match recordFor k m with
            | some r => mergeAll r [c]
            | none => c)
        else recordFor k m := by
  induction m with
  | nil =>
    by_cases hk : c.ContainerIndex = k <;> simp [addMatched, recordFor, hk]
  | cons old rest ih =>
    have hcons : ∀ (x : matchedContainer τ) (l : List (matchedContainer τ)),
        recordFor k (x :: l) = if x.ContainerIndex = k then some x else recordFor k l := by
      intro x l
      by_cases hx : x.ContainerIndex = k <;> simp [recordFor, hx]
    simp only [addMatched]
    by_cases h : old.ContainerIndex = c.ContainerIndex
    · rw [if_pos h, hcons, hcons]
      by_cases hk : c.ContainerIndex = k
      · have hok : old.ContainerIndex = k := h.trans hk
        dsimp only
        rw [if_pos hok, if_pos hk, if_pos hok]
        rfl
      · have hok : ¬ old.ContainerIndex = k := fun hc => hk (h.symm.trans hc)
        dsimp only
        rw [if_neg hok, if_neg hk, if_neg hok]
    · rw [if_neg h, hcons, hcons, ih]
      by_cases hk : c.ContainerIndex = k
      · have hok : ¬ old.ContainerIndex = k := fun hc => h (hc.trans hk.symm)
        rw [if_neg hok, if_pos hk, if_pos hk, if_neg hok]
      · rw [if_neg hk, if_neg hk]

theorem recordFor_attachAll (k : Int) (t : taskAnnotated σ τ) (cs : List (matchedContainer τ)) :
    recordFor k (attachAll t cs).Matched
      = match recordFor k t.Matched with
        | some r => some (mergeAll r (cs.filter (fun c => decide (c.ContainerIndex = k))))
        | none => mergedRecord (cs.filter (fun c => decide (c.ContainerIndex = k))) := by
  induction cs generalizing t with
  | nil =>
    cases hr : recordFor k t.Matched with
    | none => simp [attachAll, hr, mergedRecord]
    | some r => simp [attachAll, hr, mergeAll]
  | cons c rest ih =>
    have hstep : attachAll t (c :: rest) = attachAll (t.AddMatchedContainer c) rest := rfl
    have hadd : recordFor k (t.AddMatchedContainer c).Matched
        = if c.ContainerIndex = k then
            some (match recordFor k t.Matched with
              | some r => mergeAll r [c]
              | none => c)
          else recordFor k t.Matched := recordFor_addMatched k t.Matched c
    rw [hstep, ih, hadd]
    by_cases hk : c.ContainerIndex = k
    · have hfil : (c :: rest).filter (fun c => decide (c.ContainerIndex = k))
          = c :: rest.filter (fun c => decide (c.ContainerIndex = k)) := by
        simp [hk]
      rw [if_pos hk, hfil]
      cases recordFor k t.Matched with
      | none => rfl
      | some r => rfl
    · have hfil : (c :: rest).filter (fun c => decide (c.ContainerIndex = k))
          = rest.filter (fun c => decide (c.ContainerIndex = k)) := by
        simp [hk]
      rw [if_neg hk, hfil]

theorem attachAll_Task (t : taskAnnotated σ τ) (cs : List (matchedContainer τ)) :
    (attachAll t cs).Task = t.Task := by
  induction cs generalizing t with
  | nil => rfl
  | cons c rest ih =>
    have hstep : attachAll t (c :: rest) = attachAll (t.AddMatchedContainer c) rest := rfl
    rw [hstep, ih, AddMatchedContainer_Task]

theorem attachAll_keys_nodup (t : taskAnnotated σ τ) (cs : List (matchedContainer τ))
    (h : (t.Matched.map (fun r => r.ContainerIndex)).Nodup) :
    ((attachAll t cs).Matched.map (fun r => r.ContainerIndex)).Nodup := by
  induction cs generalizing t with
  | nil => exact h
  | cons c rest ih =>
    have hstep : attachAll t (c :: rest) = attachAll (t.AddMatchedContainer c) rest := rfl
    rw [hstep]
    apply ih
    rw [AddMatchedContainer_keys]
    split
    · exact h
    · next hin =>
      rw [List.nodup_append]
      refine ⟨h, List.nodup_singleton _, ?_⟩
      intro a ha hb
      rw [List.mem_singleton] at hb
      subst hb
      exact hin ha

theorem attachAll_keys (t : taskAnnotated σ τ) (cs : List (matchedContainer τ)) (k : Int) :
    k ∈ (attachAll t cs).Matched.map (fun r => r.ContainerIndex)
      ↔ k ∈ t.Matched.map (fun r => r.ContainerIndex) ∨ k ∈ cs.map (fun r => r.ContainerIndex) := by
  induction cs generalizing t with
  | nil => simp [attachAll]
  | cons c rest ih =>
    have hstep : attachAll t (c :: rest) = attachAll (t.AddMatchedContainer c) rest := rfl
    rw [hstep, ih, AddMatchedContainer_keys, List.map_cons, List.mem_cons]
    split
    · next hin =>
      constructor
      · rintro (h1 | h1)
        · exact Or.inl h1
        · exact Or.inr (Or.inr h1)
      · rintro (h1 | h1 | h1)
        · exact Or.inl h1
        · exact Or.inl (h1 ▸ hin)
        · exact Or.inr h1
    · constructor
      · rintro (h1 | h1)
        · rcases List.mem_append.1 h1 with h2 | h2
          · exact Or.inl h2
          · exact Or.inr (Or.inl (List.mem_singleton.1 h2))
        · exact Or.inr (Or.inr h1)
      · rintro (h1 | h1 | h1)
        · exact Or.inl (List.mem_append_left _ h1)
        · exact Or.inl (List.mem_append_right _ (List.mem_singleton.2 h1))
        · exact Or.inr h1

theorem filter_eq_cons_of_find? {α : Type} (p : α → Bool) (l : List α) (a : α)
    (h : l.find? p = some a) : ∃ later, l.filter p = a :: later := by
  induction l with
  | nil => simp at h
  | cons x rest ih =>
    by_cases hx : p x = true
    · rw [List.find?_cons_of_pos _ hx, Option.some.injEq] at h
      subst h
      exact ⟨rest.filter p, by rw [List.filter_cons_of_pos hx]⟩
    · rw [List.find?_cons_of_neg _ hx] at h
      obtain ⟨later, hl⟩ := ih h
      exact ⟨later, by rw [List.filter_cons_of_neg hx]; exact hl⟩

theorem recordFor_eq_some_iff (k : Int) (m : List (matchedContainer τ)) (r : matchedContainer τ)
    (h : (m.map (fun r => r.ContainerIndex)).Nodup) :
    recordFor k m = some r ↔ r ∈ m ∧ r.ContainerIndex = k := by
  induction m with
  | nil => simp [recordFor]
  | cons a rest ih =>
    rw [List.map_cons, List.nodup_cons] at h
    have hcons : recordFor k (a :: rest) = (recordFor k [a]).or (recordFor k rest) :=
      recordFor_append k [a] rest
    rw [hcons]
    by_cases ha : a.ContainerIndex = k
    · have h1 : recordFor k [a] = some a := by simp [recordFor, ha]
      rw [h1]
      simp only [Option.or_some, Option.some.injEq, List.mem_cons]
      constructor
      · intro he; subst he; exact ⟨Or.inl rfl, ha⟩
      · rintro ⟨hr | hr, hk⟩
        · exact hr.symm
        · exfalso
          apply h.1
          rw [ha, ← hk]
          exact List.mem_map_of_mem _ hr
    · have h1 : recordFor k [a] = none := by simp [recordFor, ha]
      rw [h1, Option.none_or, ih h.2]
      simp only [List.mem_cons]
      constructor
      · rintro ⟨hr, hk⟩; exact ⟨Or.inr hr, hk⟩
      · rintro ⟨hr | hr, hk⟩
        · subst hr; exact absurd hk ha
        · exact ⟨hr, hk⟩

theorem recordFor_perm (k : Int) (m₁ m₂ : List (matchedContainer τ)) (hp : m₁.Perm m₂)
    (h : (m₁.map (fun r => r.ContainerIndex)).Nodup) : recordFor k m₁ = recordFor k m₂ := by
  have h2 : (m₂.map (fun r => r.ContainerIndex)).Nodup := ((hp.map _).nodup_iff).1 h
  apply Option.ext
  intro r
  rw [Option.mem_def, Option.mem_def, recordFor_eq_some_iff k m₁ r h,
    recordFor_eq_some_iff k m₂ r h2, hp.mem_iff]

end attach

/-! ## Consequences for the returned list -/

section consequences

variable {matcherType targetMatcher σ τ Err : Type} [DecidableEq matcherType] [MergeTargets τ]

theorem asListed_valid : (rangeOrder.asListed matcherType targetMatcher).valid :=
  ⟨fun l => List.Perm.refl l, fun l => List.Perm.refl l⟩

theorem backwards_valid : (rangeOrder.backwards matcherType targetMatcher).valid :=
  ⟨fun l => List.reverse_perm l, fun l => List.reverse_perm l⟩

theorem mem_attachSeq (P : Decls matcherType targetMatcher σ τ Err)
    (ord : rangeOrder matcherType targetMatcher) (f : taskFilter matcherType targetMatcher)
    (tasks : List (taskAnnotated σ τ)) (hv : ord.valid) (c : matchedContainer τ) :
    c ∈ attachSeq P ord f tasks ↔
      ∃ v ∈ invocations P tasks f.matchers, v.tpe ∈ P.matcherOrders ∧ c ∈ v.res.Containers := by
  unfold attachSeq
  rw [mem_mergeSeq]
  have hp := invocations_perm P tasks _ _ (hv.1 f.matchers)
  constructor
  · rintro ⟨v, hv1, h2⟩
    exact ⟨v, hp.subset hv1, h2⟩
  · rintro ⟨v, hv1, h2⟩
    exact ⟨v, hp.symm.subset hv1, h2⟩

theorem attachSeq_canonical (P : Decls matcherType targetMatcher σ τ Err)
    (ord : rangeOrder matcherType targetMatcher) (f : taskFilter matcherType targetMatcher)
    (tasks : List (taskAnnotated σ τ)) (hv : ord.valid) (hw : f.wellFormed) :
    attachSeq P ord f tasks = mergeSeq P.matcherOrders (invocations P tasks f.matchers) :=
  mergeSeq_perm P tasks _ _ _ (hv.1 f.matchers) hw

theorem mem_sortedTasks_iff (P : Decls matcherType targetMatcher σ τ Err)
    (ord : rangeOrder matcherType targetMatcher) (f : taskFilter matcherType targetMatcher)
    (tasks : List (taskAnnotated σ τ)) (out : filterResult σ τ Err) (hv : ord.valid)
    (h : taskFilter.filter P ord f tasks = some out) (i : Int) :
    i ∈ out.sortedTasks ↔ ∃ c ∈ attachSeq P ord f tasks, c.TaskIndex = i := by
  obtain ⟨_, _, hs, _, _⟩ := filter_some P ord f tasks out h
  rw [hs, (sortInts_perm _).mem_iff, (hv.2 _).mem_iff, mem_touched]
  simp [attachSeq]

theorem sortedTasks_strict (P : Decls matcherType targetMatcher σ τ Err)
    (ord : rangeOrder matcherType targetMatcher) (f : taskFilter matcherType targetMatcher)
    (tasks : List (taskAnnotated σ τ)) (out : filterResult σ τ Err) (hv : ord.valid)
    (h : taskFilter.filter P ord f tasks = some out) :
    out.sortedTasks.Pairwise (fun i j => i < j) := by
  obtain ⟨_, _, hs, _, _⟩ := filter_some P ord f tasks out h
  rw [hs]
  apply sortInts_strict
  exact ((hv.2 _).nodup_iff).2 (nodup_touched [] _ List.nodup_nil)

theorem sortedTasks_inBounds (P : Decls matcherType targetMatcher σ τ Err)
    (ord : rangeOrder matcherType targetMatcher) (f : taskFilter matcherType targetMatcher)
    (tasks : List (taskAnnotated σ τ)) (out : filterResult σ τ Err) (hv : ord.valid)
    (h : taskFilter.filter P ord f tasks = some out) (i : Int) (hi : i ∈ out.sortedTasks) :
    0 ≤ i ∧ i < (tasks.length : Int) := by
  obtain ⟨c, hc, hk⟩ := (mem_sortedTasks_iff P ord f tasks out hv h i).1 hi
  obtain ⟨hb, _⟩ := filter_some P ord f tasks out h
  rw [← hk]
  exact hb c hc

theorem index?_out (P : Decls matcherType targetMatcher σ τ Err)
    (ord : rangeOrder matcherType targetMatcher) (f : taskFilter matcherType targetMatcher)
    (tasks : List (taskAnnotated σ τ)) (out : filterResult σ τ Err) (hv : ord.valid)
    (h : taskFilter.filter P ord f tasks = some out) (i : Int) (hi : i ∈ out.sortedTasks) :
    ∃ t0, index? tasks i = some t0 ∧
      index? out.tasks i
        = some (attachAll t0 (containersOf i.toNat (attachSeq P ord f tasks))).sorted := by
  obtain ⟨h0, hlt⟩ := sortedTasks_inBounds P ord f tasks out hv h i hi
  obtain ⟨_, _, _, _, ht⟩ := filter_some P ord f tasks out h
  obtain ⟨t0, ht0⟩ := Option.isSome_iff_exists.1 ((index?_isSome_iff tasks i).2 ⟨h0, hlt⟩)
  refine ⟨t0, ht0, ?_⟩
  have hget := ((index?_eq_some _ _ _).1 ht0).2
  rw [index?_eq_some]
  refine ⟨h0, ?_⟩
  rw [ht i.toNat, hget]
  simp only [Option.map_some', Int.toNat_of_nonneg h0, hi, if_true]
  rfl

theorem mem_returned_iff (out : filterResult σ τ Err) (t : taskAnnotated σ τ) :
    t ∈ out.returned ↔ ∃ i ∈ out.sortedTasks, index? out.tasks i = some t := by
  simp [filterResult.returned, List.mem_filterMap]

theorem filterMap_range_getElem? {α : Type} (l : List α) :
    (List.range l.length).filterMap (fun k => l[k]?) = l := by
  induction l with
  | nil => rfl
  | cons a rest ih =>
    rw [List.length_cons, List.range_succ_eq_map, List.filterMap_cons]
    simp only [List.getElem?_cons_zero, List.filterMap_map]
    congr 1
    have hfun : ((fun k => (a :: rest)[k]?) ∘ Nat.succ) = fun k => rest[k]? := by
      funext k
      simp
    rw [hfun]
    exact ih

theorem strict_sublist_range (l : List Int) (n : Nat) (hs : l.Pairwise (fun i j => i < j))
    (hb : ∀ i ∈ l, 0 ≤ i ∧ i < (n : Int)) :
    l.Sublist ((List.range n).map (fun k : Nat => (k : Int))) := by
  apply List.sublist_of_subperm_of_sorted (r := fun a b : Int => a ≤ b)
  · apply List.subperm_of_subset (hs.imp (fun h => ne_of_lt h))
    intro i hi
    obtain ⟨h0, hlt⟩ := hb i hi
    rw [List.mem_map]
    refine ⟨i.toNat, List.mem_range.2 ((Int.toNat_lt h0).2 hlt), Int.toNat_of_nonneg h0⟩
  · exact hs.imp (fun h => le_of_lt h)
  · rw [List.Sorted, List.pairwise_map]
    exact (List.pairwise_lt_range n).imp (fun h => by exact_mod_cast le_of_lt h)

theorem mergeSeq_append (a b : List matcherType) (invs : List (invocation matcherType τ Err)) :
    mergeSeq (a ++ b) invs = mergeSeq a invs ++ mergeSeq b invs := by
  simp [mergeSeq]

theorem mergeSeq_cons (t : matcherType) (b : List matcherType)
    (invs : List (invocation matcherType τ Err)) :
    mergeSeq (t :: b) invs
      = (resultsOfType invs t).flatMap (fun res => res.Containers) ++ mergeSeq b invs := by
  simp [mergeSeq]

theorem recordFor_containersOf (k : Int) (i : Int) (h0 : 0 ≤ i) (cs : List (matchedContainer τ)) :
    recordFor k (containersOf i.toNat cs)
      = cs.find? (fun c => decide (c.TaskIndex = i ∧ c.ContainerIndex = k)) := by
  unfold recordFor containersOf
  rw [List.find?_filter, Int.toNat_of_nonneg h0]
  congr 1
  funext c
  simp

theorem record_eq_merged (P : Decls matcherType targetMatcher σ τ Err)
    (ord : rangeOrder matcherType targetMatcher) (f : taskFilter matcherType targetMatcher)
    (tasks : List (taskAnnotated σ τ)) (out : filterResult σ τ Err) (hv : ord.valid)
    (hf : fresh tasks) (h : taskFilter.filter P ord f tasks = some out) (i k : Int)
    (hi : i ∈ out.sortedTasks) :
    out.record i k
      = mergedRecord ((attachSeq P ord f tasks).filter
          (fun c => decide (c.TaskIndex = i ∧ c.ContainerIndex = k))) := by
  obtain ⟨t0, ht0, hout⟩ := index?_out P ord f tasks out hv h i hi
  have hmem : t0 ∈ tasks := List.mem_iff_getElem?.2 ⟨_, ((index?_eq_some _ _ _).1 ht0).2⟩
  have h0 : 0 ≤ i := ((index?_eq_some _ _ _).1 ht0).1
  have hnd : ((attachAll t0 (containersOf i.toNat (attachSeq P ord f tasks))).Matched.map
      (fun r => r.ContainerIndex)).Nodup := by
    apply attachAll_keys_nodup
    rw [hf t0 hmem]
    exact List.nodup_nil
  unfold filterResult.record
  rw [hout, Option.some_bind]
  have hs : (attachAll t0 (containersOf i.toNat (attachSeq P ord f tasks))).sorted.Matched
      = sortMatched (attachAll t0 (containersOf i.toNat (attachSeq P ord f tasks))).Matched := rfl
  rw [hs, ← recordFor_perm k _ _ (sortMatched_perm _).symm hnd, recordFor_attachAll, hf t0 hmem]
  have hnone : recordFor k ([] : List (matchedContainer τ)) = none := rfl
  rw [hnone]
  simp only
  congr 1
  unfold containersOf
  rw [List.filter_filter, Int.toNat_of_nonneg h0]
  congr 1
  funext c
  rw [Bool.decide_and, Bool.and_comm]

theorem mem_keys_containersOf (k : Int) (i : Int) (h0 : 0 ≤ i) (cs : List (matchedContainer τ)) :
    k ∈ (containersOf i.toNat cs).map (fun r => r.ContainerIndex)
      ↔ ∃ c ∈ cs, c.TaskIndex = i ∧ c.ContainerIndex = k := by
  simp only [containersOf, List.mem_map, List.mem_filter, decide_eq_true_eq,
    Int.toNat_of_nonneg h0]
  constructor
  · rintro ⟨c, ⟨hc, hi⟩, hk⟩
    exact ⟨c, hc, hi, hk⟩
  · rintro ⟨c, hc, hi, hk⟩
    exact ⟨c, ⟨hc, hi⟩, hk⟩

theorem matched_keys_iff (P : Decls matcherType targetMatcher σ τ Err)
    (ord : rangeOrder matcherType targetMatcher) (f : taskFilter matcherType targetMatcher)
    (tasks : List (taskAnnotated σ τ)) (out : filterResult σ τ Err) (hv : ord.valid)
    (h : taskFilter.filter P ord f tasks = some out) (i : Int) (hi : i ∈ out.sortedTasks)
    (t : taskAnnotated σ τ) (ht : index? out.tasks i = some t) (k : Int) :
    k ∈ t.Matched.map (fun r => r.ContainerIndex) ↔
      (∃ t0, index? tasks i = some t0 ∧ k ∈ t0.Matched.map (fun r => r.ContainerIndex)) ∨
        ∃ c ∈ attachSeq P ord f tasks, c.TaskIndex = i ∧ c.ContainerIndex = k := by
  obtain ⟨t0, ht0, hout⟩ := index?_out P ord f tasks out hv h i hi
  have h0 : 0 ≤ i := ((index?_eq_some _ _ _).1 ht0).1
  rw [hout, Option.some.injEq] at ht
  subst ht
  have hs : (attachAll t0 (containersOf i.toNat (attachSeq P ord f tasks))).sorted.Matched
      = sortMatched (attachAll t0 (containersOf i.toNat (attachSeq P ord f tasks))).Matched := rfl
  rw [hs, ((sortMatched_perm _).map _).mem_iff, attachAll_keys, mem_keys_containersOf k i h0]
  constructor
  · rintro (h1 | h1)
    · exact Or.inl ⟨t0, ht0, h1⟩
    · exact Or.inr h1
  · rintro (⟨t1, ht1, h1⟩ | h1)
    · rw [ht0, Option.some.injEq] at ht1
      subst ht1
      exact Or.inl h1
    · exact Or.inr h1

theorem returned_of_mem_sortedTasks (P : Decls matcherType targetMatcher σ τ Err)
    (ord : rangeOrder matcherType targetMatcher) (f : taskFilter matcherType targetMatcher)
    (tasks : List (taskAnnotated σ τ)) (out : filterResult σ τ Err) (hv : ord.valid)
    (h : taskFilter.filter P ord f tasks = some out) (i : Int) (hi : i ∈ out.sortedTasks) :
    ∃ t, index? out.tasks i = some t ∧ t ∈ out.returned := by
  obtain ⟨t0, _, hout⟩ := index?_out P ord f tasks out hv h i hi
  exact ⟨_, hout, (mem_returned_iff out _).2 ⟨i, hi, hout⟩⟩

theorem resultsOfType_eq_of_map (invs₁ invs₂ : List (invocation matcherType τ Err))
    (h : invs₁.map (fun v => (v.tpe, v.index, v.res))
      = invs₂.map (fun v => (v.tpe, v.index, v.res))) (t : matcherType) :
    resultsOfType invs₁ t = resultsOfType invs₂ t := by
  have key : ∀ invs : List (invocation matcherType τ Err),
      resultsOfType invs t
        = ((invs.map (fun v => (v.tpe, v.index, v.res))).filter
            (fun p => decide (p.1 = t))).map (fun p => p.2.2) := by
    intro invs
    induction invs with
    | nil => rfl
    | cons v rest ih =>
      have hcons : resultsOfType (v :: rest) t
          = resultsOfType [v] t ++ resultsOfType rest t := resultsOfType_append [v] rest t
      rw [hcons, ih]
      by_cases hv : v.tpe = t <;> simp [resultsOfType, hv]
  rw [key invs₁, key invs₂, h]

theorem filter_map_eq (P₁ P₂ : Decls matcherType targetMatcher σ τ Err)
    (ord₁ ord₂ : rangeOrder matcherType targetMatcher)
    (f₁ f₂ : taskFilter matcherType targetMatcher) (tasks : List (taskAnnotated σ τ))
    (horders : P₁.matcherOrders = P₂.matcherOrders)
    (hres : ∀ t, resultsOfType (invocations P₁ tasks (ord₁.matchers f₁.matchers)) t
      = resultsOfType (invocations P₂ tasks (ord₂.matchers f₂.matchers)) t)
    (hkeys : ∀ l, (ord₁.matchedTasks l).Perm (ord₂.matchedTasks l)) :
    (taskFilter.filter P₁ ord₁ f₁ tasks).map
        (fun out => (out.sortedTasks, out.tasks, out.returned))
      = (taskFilter.filter P₂ ord₂ f₂ tasks).map
          (fun out => (out.sortedTasks, out.tasks, out.returned)) := by
  have hmatched : (fun t => ([] : List (matchResult τ))
        ++ resultsOfType (invocations P₁ tasks (ord₁.matchers f₁.matchers)) t)
      = (fun t => ([] : List (matchResult τ))
        ++ resultsOfType (invocations P₂ tasks (ord₂.matchers f₂.matchers)) t) := by
    funext t
    rw [hres t]
  unfold taskFilter.filter
  rw [runTypes_eq, runTypes_eq]
  simp only [hmatched, horders]
  cases attachTypes (fun t => ([] : List (matchResult τ))
      ++ resultsOfType (invocations P₂ tasks (ord₂.matchers f₂.matchers)) t) P₂.matcherOrders
      (⟨[], tasks⟩ : mergeState σ τ) with
  | none => rfl
  | some st =>
    simp only
    rw [sortInts_eq_of_perm _ _ (hkeys st.matchedTasks)]
    cases sortTasks (sortInts (ord₂.matchedTasks st.matchedTasks)) st.tasks [] with
    | none => rfl
    | some res => rfl

theorem flatMap_eq_of_perm_single {α β : Type} (g : α → List β) (l others : List α) (a : α)
    (hp : l.Perm (a :: others)) (ho : ∀ v ∈ others, g v = []) : l.flatMap g = g a := by
  induction l generalizing others with
  | nil => exact absurd hp.symm (List.cons_ne_nil _ _ ∘ List.Perm.eq_nil)
  | cons x rest ih =>
    rw [List.flatMap_cons]
    by_cases hx : g x = []
    · have hxmem : x ∈ a :: others := hp.subset (List.mem_cons_self _ _)
      rcases List.mem_cons.1 hxmem with hxa | hxo
      · subst hxa
        have hrest : ∀ v ∈ rest, g v = [] := by
          intro v hv
          exact ho v ((hp.cons_inv).subset hv)
        rw [hx, List.nil_append]
        exact List.flatMap_eq_nil_iff.2 hrest
      · obtain ⟨s, t, hst⟩ := List.append_of_mem hxo
        have hp1 : (x :: rest).Perm (x :: a :: (s ++ t)) := by
          refine hp.trans ?_
          rw [hst]
          exact ((List.perm_middle).cons a).trans (List.Perm.swap x a (s ++ t))
        have ho1 : ∀ v ∈ s ++ t, g v = [] := by
          intro v hv
          apply ho v
          rw [hst]
          rcases List.mem_append.1 hv with h1 | h1
          · exact List.mem_append_left _ h1
          · exact List.mem_append_right _ (List.mem_cons_of_mem _ h1)
        rw [hx, List.nil_append]
        exact ih (s ++ t) hp1.cons_inv ho1
    · have hxmem : x ∈ a :: others := hp.subset (List.mem_cons_self _ _)
      rcases List.mem_cons.1 hxmem with hxa | hxo
      · subst hxa
        have hrest : ∀ v ∈ rest, g v = [] := by
          intro v hv
          exact ho v ((hp.cons_inv).subset hv)
        rw [List.flatMap_eq_nil_iff.2 hrest, List.append_nil]
      · exact absurd (ho x hxo) hx

theorem length_flatMap_of_le_one {α β : Type} (g : α → List β) (l : List α)
    (h : ∀ v ∈ l, (g v).length ≤ 1) :
    (l.flatMap g).length = l.countP (fun v => !(g v).isEmpty) := by
  induction l with
  | nil => rfl
  | cons x rest ih =>
    have hx := h x (List.mem_cons_self _ _)
    rw [List.flatMap_cons, List.length_append, ih (fun v hv => h v (List.mem_cons_of_mem _ hv)),
      List.countP_cons]
    cases hg : g x with
    | nil => simp
    | cons b bs =>
      rw [hg] at hx
      have hbs : bs = [] := by
        cases bs with
        | nil => rfl
        | cons c cs => simp at hx
      subst hbs
      simp [Nat.add_comm]

end consequences

/-! ## The record of calls -/

section trace

variable {matcherType targetMatcher σ τ Err : Type} [DecidableEq matcherType] [MergeTargets τ]

theorem runMatchersLogged_eq (P : Decls matcherType targetMatcher σ τ Err)
    (tasks : List (taskAnnotated σ τ)) (tpe : matcherType) (ms : List targetMatcher) (i : Nat)
    (st : (matcherType → List (matchResult τ)) × List Err)
    (calls : List (matcherCall matcherType targetMatcher σ τ)) :
    runMatchersLogged P tasks tpe ms i (st, calls)
      = (runMatchers P tasks tpe ms i st,
          calls ++ (ms.enumFrom i).map (fun im => ⟨tpe, tasks, im.2, im.1⟩)) := by
  induction ms generalizing i st calls with
  | nil =>
    obtain ⟨matched, merr⟩ := st
    simp [runMatchersLogged, runMatchers]
  | cons m rest ih =>
    obtain ⟨matched, merr⟩ := st
    simp only [runMatchersLogged, runMatchers, List.enumFrom_cons, List.map_cons]
    rw [ih]
    simp

theorem runTypesLogged_eq (P : Decls matcherType targetMatcher σ τ Err)
    (tasks : List (taskAnnotated σ τ)) (l : List (matcherType × List targetMatcher))
    (st : (matcherType → List (matchResult τ)) × List Err)
    (calls : List (matcherCall matcherType targetMatcher σ τ)) :
    runTypesLogged P tasks l (st, calls)
      = (runTypes P tasks l st, calls ++ configuredCalls tasks l) := by
  induction l generalizing st calls with
  | nil => simp [runTypesLogged, runTypes, configuredCalls]
  | cons e rest ih =>
    obtain ⟨tpe, ms⟩ := e
    simp only [runTypesLogged, runTypes]
    rw [runMatchersLogged_eq, ih]
    simp [configuredCalls, List.enum]

theorem attachContainersLogged_fst (cs : List (matchedContainer τ)) (st : mergeState σ τ)
    (log : List (matchedContainer τ)) :
    (attachContainersLogged cs (st, log)).1 = attachContainers cs st := by
  induction cs generalizing st log with
  | nil => rfl
  | cons c rest ih =>
    simp only [attachContainersLogged, attachContainers]
    cases index? st.tasks c.TaskIndex with
    | none => rfl
    | some task => exact ih _ _

theorem attachContainersLogged_snd (cs : List (matchedContainer τ)) (st : mergeState σ τ)
    (log : List (matchedContainer τ)) :
    (∃ rest, (attachContainersLogged cs (st, log)).2 ++ rest = log ++ cs) ∧
      ((attachContainers cs st).isSome → (attachContainersLogged cs (st, log)).2 = log ++ cs) := by
  induction cs generalizing st log with
  | nil => simp [attachContainersLogged]
  | cons c rest ih =>
    simp only [attachContainersLogged, attachContainers]
    cases index? st.tasks c.TaskIndex with
    | none =>
      refine ⟨⟨c :: rest, rfl⟩, ?_⟩
      intro h
      simp at h
    | some task =>
      obtain ⟨⟨r, hr⟩, h2⟩ := ih
        (⟨setAdd st.matchedTasks c.TaskIndex,
          st.tasks.set c.TaskIndex.toNat (task.AddMatchedContainer c)⟩ : mergeState σ τ)
        (log ++ [c])
      refine ⟨⟨r, ?_⟩, ?_⟩
      · rw [hr]; simp
      · intro h
        rw [h2 h]; simp

theorem attachContainersLogged_append (a b : List (matchedContainer τ))
    (s : mergeState σ τ × List (matchedContainer τ)) :
    attachContainersLogged (a ++ b) s
      = match attachContainersLogged a s with
        | (none, log) => (none, log)
        | (some st, log) => attachContainersLogged b (st, log) := by
  obtain ⟨st, log⟩ := s
  induction a generalizing st log with
  | nil => simp [attachContainersLogged]
  | cons c rest ih =>
    simp only [List.cons_append, attachContainersLogged]
    cases index? st.tasks c.TaskIndex with
    | none => rfl
    | some task => exact ih _ _

theorem attachResultsLogged_eq (rs : List (matchResult τ))
    (s : mergeState σ τ × List (matchedContainer τ)) :
    attachResultsLogged rs s
      = attachContainersLogged (rs.flatMap (fun res => res.Containers)) s := by
  induction rs generalizing s with
  | nil =>
    obtain ⟨st, log⟩ := s
    simp [attachResultsLogged, attachContainersLogged]
  | cons r rest ih =>
    simp only [attachResultsLogged, List.flatMap_cons, attachContainersLogged_append]
    rcases attachContainersLogged r.Containers s with ⟨_ | st, log⟩
    · rfl
    · exact ih _

theorem attachTypesLogged_eq (matched : matcherType → List (matchResult τ))
    (orders : List matcherType) (s : mergeState σ τ × List (matchedContainer τ)) :
    attachTypesLogged matched orders s
      = attachContainersLogged
          (orders.flatMap (fun t => (matched t).flatMap (fun res => res.Containers))) s := by
  induction orders generalizing s with
  | nil =>
    obtain ⟨st, log⟩ := s
    simp [attachTypesLogged, attachContainersLogged]
  | cons t rest ih =>
    simp only [attachTypesLogged, List.flatMap_cons, attachContainersLogged_append,
      attachResultsLogged_eq]
    rcases attachContainersLogged ((matched t).flatMap (fun res => res.Containers)) s
      with ⟨_ | st, log⟩
    · rfl
    · exact ih _

theorem filterLogged_spec (P : Decls matcherType targetMatcher σ τ Err)
    (ord : rangeOrder matcherType targetMatcher) (f : taskFilter matcherType targetMatcher)
    (tasks : List (taskAnnotated σ τ)) :
    (taskFilter.filterLogged P ord f tasks).result = taskFilter.filter P ord f tasks ∧
      (taskFilter.filterLogged P ord f tasks).calls
        = configuredCalls tasks (ord.matchers f.matchers) ∧
      (taskFilter.filterLogged P ord f tasks).matched
        = (fun t => resultsOfType (invocations P tasks (ord.matchers f.matchers)) t) ∧
      (taskFilter.filterLogged P ord f tasks).attached
        = (attachContainersLogged (attachSeq P ord f tasks)
            ((⟨[], tasks⟩ : mergeState σ τ), [])).2 := by
  unfold taskFilter.filterLogged taskFilter.filter
  rw [runTypesLogged_eq, runTypes_eq]
  simp only [List.nil_append, attachTypesLogged_eq, attachTypes_eq]
  have hseq : (P.matcherOrders.flatMap (fun t =>
      (resultsOfType (invocations P tasks (ord.matchers f.matchers)) t).flatMap
        (fun res => res.Containers))) = attachSeq P ord f tasks := rfl
  rw [hseq]
  have hfst := attachContainersLogged_fst (attachSeq P ord f tasks)
    (⟨[], tasks⟩ : mergeState σ τ) []
  rcases hlog : attachContainersLogged (attachSeq P ord f tasks)
    ((⟨[], tasks⟩ : mergeState σ τ), []) with ⟨_ | st, log⟩
  · rw [hlog] at hfst
    simp only at hfst
    rw [← hfst]
    exact ⟨rfl, rfl, rfl, rfl⟩
  · rw [hlog] at hfst
    simp only at hfst
    rw [← hfst]
    simp only
    cases sortTasks (sortInts (ord.matchedTasks st.matchedTasks)) st.tasks [] with
    | none => exact ⟨rfl, rfl, rfl, rfl⟩
    | some res => exact ⟨rfl, rfl, rfl, rfl⟩

theorem invocationsOf_map_res (P : Decls matcherType targetMatcher σ τ Err)
    (tasks : List (taskAnnotated σ τ)) (tpe : matcherType) (ms : List targetMatcher) (i : Nat) :
    (invocationsOf P tasks tpe ms i).map (fun v => v.res)
      = (ms.enumFrom i).map (fun im => (P.matchContainers tasks im.2 im.1).1) := by
  induction ms generalizing i with
  | nil => rfl
  | cons m rest ih =>
    simp only [invocationsOf, List.enumFrom_cons, List.map_cons]
    rw [ih]

theorem resultsOfType_of_not_mem (P : Decls matcherType targetMatcher σ τ Err)
    (tasks : List (taskAnnotated σ τ)) (l : List (matcherType × List targetMatcher))
    (t : matcherType) (h : t ∉ l.map Prod.fst) :
    resultsOfType (invocations P tasks l) t = [] := by
  rw [resultsOfType_invocations]
  have hnil : l.filter (fun e => decide (e.1 = t)) = [] := by
    rw [List.filter_eq_nil_iff]
    intro e he hc
    apply h
    have hk : e.1 = t := of_decide_eq_true hc
    rw [← hk]
    exact List.mem_map_of_mem _ he
  rw [hnil]
  rfl

theorem lookup_of_not_mem {β : Type} (l : List (matcherType × β)) (t : matcherType)
    (h : t ∉ l.map Prod.fst) : l.lookup t = none := by
  induction l with
  | nil => rfl
  | cons e rest ih =>
    obtain ⟨k, b⟩ := e
    simp only [List.map_cons, List.mem_cons, not_or] at h
    rw [List.lookup_cons]
    have hne : (t == k) = false := by simpa using h.1
    rw [hne]
    exact ih h.2

theorem resultsOfType_lookup (P : Decls matcherType targetMatcher σ τ Err)
    (tasks : List (taskAnnotated σ τ)) (l : List (matcherType × List targetMatcher))
    (hn : (l.map Prod.fst).Nodup) (t : matcherType) :
    resultsOfType (invocations P tasks l) t
      = ((l.lookup t).getD []).enum.map (fun im => (P.matchContainers tasks im.2 im.1).1) := by
  induction l with
  | nil => simp [invocations, resultsOfType]
  | cons e rest ih =>
    obtain ⟨k, ms⟩ := e
    rw [List.map_cons, List.nodup_cons] at hn
    have hinv : invocations P tasks ((k, ms) :: rest)
        = invocationsOf P tasks k ms 0 ++ invocations P tasks rest := by
      simp [invocations]
    rw [hinv, resultsOfType_append, resultsOfType_invocationsOf, List.lookup_cons]
    by_cases h : t = k
    · subst h
      rw [resultsOfType_of_not_mem P tasks rest t hn.1, if_pos rfl, invocationsOf_map_res]
      simp [List.enum]
    · have hne : (t == k) = false := by simpa using h
      rw [if_neg h, hne, ih hn.2]
      simp

theorem mergeSeq_eq_mergeOrder (P : Decls matcherType targetMatcher σ τ Err)
    (f : taskFilter matcherType targetMatcher) (tasks : List (taskAnnotated σ τ))
    (hw : f.wellFormed) :
    mergeSeq P.matcherOrders (invocations P tasks f.matchers) = mergeOrder P f tasks := by
  unfold mergeSeq mergeOrder taskFilter.matchersOf
  congr 1
  funext t
  rw [resultsOfType_lookup P tasks f.matchers hw t]
  induction ((List.lookup t f.matchers).getD []).enum with
  | nil => rfl
  | cons a rest ih => simp [List.flatMap_cons, ih]

theorem configuredCalls_keys (tasks : List (taskAnnotated σ τ))
    (l : List (matcherType × List targetMatcher)) :
    (configuredCalls tasks l).map (fun c => (c.tpe, c.index))
      = l.flatMap (fun e => (List.range e.2.length).map (fun i => (e.1, i))) := by
  induction l with
  | nil => rfl
  | cons e rest ih =>
    have hcons : configuredCalls tasks (e :: rest)
        = e.2.enum.map (fun im => (⟨e.1, tasks, im.2, im.1⟩ :
            matcherCall matcherType targetMatcher σ τ)) ++ configuredCalls tasks rest := by
      simp [configuredCalls]
    rw [hcons, List.map_append, ih, List.flatMap_cons, List.map_map, ← List.enum_map_fst,
      List.map_map]
    rfl

theorem configuredCalls_keys_nodup (tasks : List (taskAnnotated σ τ))
    (l : List (matcherType × List targetMatcher)) (hn : (l.map Prod.fst).Nodup) :
    ((configuredCalls tasks l).map (fun c => (c.tpe, c.index))).Nodup := by
  rw [configuredCalls_keys]
  induction l with
  | nil => exact List.nodup_nil
  | cons e rest ih =>
    rw [List.map_cons, List.nodup_cons] at hn
    rw [List.flatMap_cons, List.nodup_append]
    refine ⟨?_, ih hn.2, ?_⟩
    · apply List.Nodup.map _ (List.nodup_range _)
      intro a b hab
      exact (Prod.mk.inj hab).2
    · intro x hx hy
      obtain ⟨i, _, hi⟩ := List.mem_map.1 hx
      obtain ⟨e1, he1, hx1⟩ := List.mem_flatMap.1 hy
      obtain ⟨j, _, hj⟩ := List.mem_map.1 hx1
      apply hn.1
      have hk : e.1 = e1.1 := by
        rw [← hi] at hj
        exact ((Prod.mk.inj hj).1).symm
      rw [hk]
      exact List.mem_map_of_mem _ he1

theorem mem_configuredCalls_keys (tasks : List (taskAnnotated σ τ))
    (l : List (matcherType × List targetMatcher)) (e : matcherType × List targetMatcher)
    (he : e ∈ l) (i : Nat) (hi : i < e.2.length) :
    (e.1, i) ∈ (configuredCalls tasks l).map (fun c => (c.tpe, c.index)) := by
  rw [configuredCalls_keys, List.mem_flatMap]
  exact ⟨e, he, List.mem_map.2 ⟨i, List.mem_range.2 hi, rfl⟩⟩

theorem configuredCalls_tasks (tasks : List (taskAnnotated σ τ))
    (l : List (matcherType × List targetMatcher))
    (c : matcherCall matcherType targetMatcher σ τ) (hc : c ∈ configuredCalls tasks l) :
    c.tasks = tasks := by
  simp only [configuredCalls, List.mem_flatMap, List.mem_map] at hc
  obtain ⟨e, _, im, _, h⟩ := hc
  rw [← h]

theorem lookup_of_mem {β : Type} (l : List (matcherType × β)) (hn : (l.map Prod.fst).Nodup)
    (t : matcherType) (b : β) (h : (t, b) ∈ l) : l.lookup t = some b := by
  induction l with
  | nil => simp at h
  | cons e rest ih =>
    obtain ⟨k, b1⟩ := e
    rw [List.map_cons, List.nodup_cons] at hn
    rw [List.lookup_cons]
    rcases List.mem_cons.1 h with h1 | h1
    · obtain ⟨hk, hb⟩ := Prod.mk.inj h1
      subst hk; subst hb
      simp
    · have hne : t ≠ k := by
        intro hc
        apply hn.1
        rw [← hc]
        exact List.mem_map.2 ⟨(t, b), h1, rfl⟩
      have hne1 : (t == k) = false := by simpa using hne
      rw [hne1]
      exact ih hn.2 h1

theorem countP_eq_one_of_mem {α : Type} [DecidableEq α] (l : List α) (a : α) (hn : l.Nodup)
    (ha : a ∈ l) : l.countP (fun k => decide (k = a)) = 1 := by
  have h := List.count_eq_one_of_mem hn ha
  rw [List.count_eq_countP] at h
  rw [← h]
  congr 1

theorem filter_eq_phases (P : Decls matcherType targetMatcher σ τ Err)
    (ord : rangeOrder matcherType targetMatcher) (f : taskFilter matcherType targetMatcher)
    (tasks : List (taskAnnotated σ τ)) :
    taskFilter.filter P ord f tasks
      = (mergePhase P ord f tasks).bind (fun st =>
          (sortPhase ord st).map (fun r =>
            ⟨r.2, (runTypes P tasks (ord.matchers f.matchers) (fun _ => [], [])).2, r.1⟩)) := by
  unfold taskFilter.filter mergePhase sortPhase
  rw [runTypes_eq]
  simp only
  cases attachTypes (fun t => ([] : List (matchResult τ))
      ++ resultsOfType (invocations P tasks (ord.matchers f.matchers)) t) P.matcherOrders
      (⟨[], tasks⟩ : mergeState σ τ) with
  | none => rfl
  | some st =>
    simp only [Option.some_bind]
    cases sortTasks (sortInts (ord.matchedTasks st.matchedTasks)) st.tasks [] with
    | none => rfl
    | some res => rfl

theorem mergePhase_eq (P : Decls matcherType targetMatcher σ τ Err)
    (ord : rangeOrder matcherType targetMatcher) (f : taskFilter matcherType targetMatcher)
    (tasks : List (taskAnnotated σ τ)) :
    mergePhase P ord f tasks
      = attachContainers (attachSeq P ord f tasks) (⟨[], tasks⟩ : mergeState σ τ) := by
  unfold mergePhase
  rw [runTypes_eq, attachTypes_eq]
  rfl

theorem find?_enumFrom_results (P : Decls matcherType targetMatcher σ τ Err)
    (tasks : List (taskAnnotated σ τ)) (p : matchedContainer τ → Bool)
    (cI : matchedContainer τ) (ms : List targetMatcher) (s i : Nat) (m : targetMatcher)
    (hm : ms[i]? = some m)
    (hlower : ∀ h, h < i → ∀ mh, ms[h]? = some mh →
      ∀ c ∈ (P.matchContainers tasks mh (s + h)).1.Containers, p c = false)
    (hfirst : (P.matchContainers tasks m (s + i)).1.Containers.find? p = some cI) :
    (((ms.enumFrom s).map (fun im => (P.matchContainers tasks im.2 im.1).1)).flatMap
      (fun res => res.Containers)).find? p = some cI := by
  induction ms generalizing s i with
  | nil => simp at hm
  | cons m0 rest ih =>
    rw [List.enumFrom_cons, List.map_cons, List.flatMap_cons, List.find?_append]
    cases i with
    | zero =>
      simp only [List.getElem?_cons_zero, Option.some.injEq] at hm
      subst hm
      rw [Nat.add_zero] at hfirst
      rw [hfirst]
      rfl
    | succ i1 =>
      have hnone : (P.matchContainers tasks m0 s).1.Containers.find? p = none := by
        rw [List.find?_eq_none]
        intro c hc
        have := hlower 0 (Nat.succ_pos _) m0 (by simp) c (by rw [Nat.add_zero]; exact hc)
        simp [this]
      rw [hnone, Option.none_or]
      apply ih (s + 1) i1
      · simpa using hm
      · intro h hh mh hmh c hc
        have hidx : s + (h + 1) = s + 1 + h := by omega
        exact hlower (h + 1) (Nat.succ_lt_succ hh) mh (by simpa using hmh) c
          (by rw [hidx]; exact hc)
      · have hidx : s + (i1 + 1) = s + 1 + i1 := by omega
        rw [← hidx]
        exact hfirst

theorem record_of_first_type (P : Decls matcherType targetMatcher σ τ Err)
    (ord : rangeOrder matcherType targetMatcher) (f : taskFilter matcherType targetMatcher)
    (tasks : List (taskAnnotated σ τ)) (out : filterResult σ τ Err) (hv : ord.valid)
    (hw : f.wellFormed) (hf : fresh tasks) (h : taskFilter.filter P ord f tasks = some out)
    (A : matcherType) (before after : List matcherType)
    (hA : P.matcherOrders = before ++ A :: after) (i k : Int) (cA : matchedContainer τ)
    (hbefore : ∀ v ∈ invocations P tasks f.matchers, v.tpe ∈ before →
      ∀ c ∈ v.res.Containers, ¬ (c.TaskIndex = i ∧ c.ContainerIndex = k))
    (hfirst : ((resultsOfType (invocations P tasks f.matchers) A).flatMap
        (fun res => res.Containers)).find?
          (fun c => decide (c.TaskIndex = i ∧ c.ContainerIndex = k)) = some cA) :
    ∃ later,
      (mergeOrder P f tasks).filter (fun c => decide (c.TaskIndex = i ∧ c.ContainerIndex = k))
        = cA :: later ∧
      out.record i k = some (mergeAll cA later) := by
  have hcan := attachSeq_canonical P ord f tasks hv hw
  have hseq : attachSeq P ord f tasks
      = mergeSeq before (invocations P tasks f.matchers)
        ++ ((resultsOfType (invocations P tasks f.matchers) A).flatMap
              (fun res => res.Containers)
            ++ mergeSeq after (invocations P tasks f.matchers)) := by
    rw [hcan, hA, mergeSeq_append, mergeSeq_cons]
  have hnone : (mergeSeq before (invocations P tasks f.matchers)).find?
      (fun c => decide (c.TaskIndex = i ∧ c.ContainerIndex = k)) = none := by
    rw [List.find?_eq_none]
    intro c hc
    obtain ⟨v, hv1, hv2, hv3⟩ := (mem_mergeSeq _ _ c).1 hc
    simpa using hbefore v hv1 hv2 c hv3
  have hfind : (attachSeq P ord f tasks).find?
      (fun c => decide (c.TaskIndex = i ∧ c.ContainerIndex = k)) = some cA := by
    rw [hseq, List.find?_append, hnone, Option.none_or, List.find?_append, hfirst]
    rfl
  have hcA := List.find?_some hfind
  have hmemA := List.mem_of_find?_eq_some hfind
  have hi : i ∈ out.sortedTasks := by
    rw [mem_sortedTasks_iff P ord f tasks out hv h i]
    exact ⟨cA, hmemA, by simpa using (of_decide_eq_true hcA).1⟩
  obtain ⟨later, hlater⟩ := filter_eq_cons_of_find? _ _ _ hfind
  have hmo : attachSeq P ord f tasks = mergeOrder P f tasks := by
    rw [hcan, mergeSeq_eq_mergeOrder P f tasks hw]
  refine ⟨later, by rw [← hmo]; exact hlater, ?_⟩
  rw [record_eq_merged P ord f tasks out hv hf h i k hi, hlater]
  rfl

end trace

/-! ## The properties of `taskFilter.filter` -/

section properties

variable {matcherType targetMatcher σ τ Err : Type} [DecidableEq matcherType] [MergeTargets τ]

/-- C1: whatever the tasks and the matcher configuration, the pointers returned
by `taskFilter.filter` are positions of the input list in strictly ascending
order; hence the returned pointers are a subsequence of the input pointers
`0, 1, ..., len(tasks) - 1` and the returned task objects a subsequence of the
task objects of the list. -/
theorem filter_tasks_ascending (P : Decls matcherType targetMatcher σ τ Err)
    (ord : rangeOrder matcherType targetMatcher) (f : taskFilter matcherType targetMatcher)
    (tasks : List (taskAnnotated σ τ)) (out : filterResult σ τ Err) (hv : ord.valid)
    (h : taskFilter.filter P ord f tasks = some out) :
    out.sortedTasks.Pairwise (fun i j => i < j) ∧
      (∀ i ∈ out.sortedTasks, 0 ≤ i ∧ i < (tasks.length : Int)) ∧
      out.sortedTasks.Sublist ((List.range tasks.length).map (fun k : Nat => (k : Int))) ∧
      out.returned.Sublist out.tasks := by
  have hs := sortedTasks_strict P ord f tasks out hv h
  have hb := sortedTasks_inBounds P ord f tasks out hv h
  have hsub := strict_sublist_range out.sortedTasks tasks.length hs hb
  refine ⟨hs, hb, hsub, ?_⟩
  obtain ⟨_, _, _, hl, _⟩ := filter_some P ord f tasks out h
  have h1 := hsub.filterMap (index? out.tasks)
  rw [List.filterMap_map] at h1
  have h2 : (List.range tasks.length).filterMap (index? out.tasks ∘ fun k : Nat => (k : Int))
      = out.tasks := by
    rw [← hl]
    have hfun : (index? out.tasks ∘ fun k : Nat => (k : Int)) = fun k => out.tasks[k]? := by
      funext k
      exact index?_natCast out.tasks k
    rw [hfun]
    exact filterMap_range_getElem? out.tasks
  rw [h2] at h1
  exact h1

/-- Witness for C1: the call on the worked configuration returns tasks 0 and 1. -/
theorem filter_tasks_ascending_witness :
    (rangeOrder.asListed exType (matchResult (List String) × List String)).valid ∧
      taskFilter.filter exDecls (rangeOrder.asListed _ _) exFilter exTasks = some exOut ∧
      exOut.sortedTasks.Pairwise (fun i j => i < j) ∧
      (∀ i ∈ exOut.sortedTasks, 0 ≤ i ∧ i < (exTasks.length : Int)) ∧
      exOut.sortedTasks.Sublist ((List.range exTasks.length).map (fun k : Nat => (k : Int))) ∧
      exOut.returned.Sublist exOut.tasks :=
  ⟨asListed_valid, by decide,
    filter_tasks_ascending exDecls (rangeOrder.asListed _ _) exFilter exTasks exOut
      asListed_valid (by decide)⟩

/-- C2: when every task starts with an empty matched list, in every task
returned by `taskFilter.filter` the `ContainerIndex` values of `Matched` are
strictly ascending: no sub-unit is recorded twice, however many matchers of
whatever types matched it. -/
theorem filter_matched_ascending (P : Decls matcherType targetMatcher σ τ Err)
    (ord : rangeOrder matcherType targetMatcher) (f : taskFilter matcherType targetMatcher)
    (tasks : List (taskAnnotated σ τ)) (out : filterResult σ τ Err) (hv : ord.valid)
    (hf : fresh tasks) (h : taskFilter.filter P ord f tasks = some out) :
    ∀ t ∈ out.returned,
      (t.Matched.map (fun r => r.ContainerIndex)).Pairwise (fun a b => a < b) := by
  intro t ht
  obtain ⟨i, hi, hti⟩ := (mem_returned_iff out t).1 ht
  obtain ⟨t0, ht0, hout⟩ := index?_out P ord f tasks out hv h i hi
  rw [hout, Option.some.injEq] at hti
  subst hti
  have hmem : t0 ∈ tasks := List.mem_iff_getElem?.2 ⟨_, ((index?_eq_some _ _ _).1 ht0).2⟩
  apply sortMatched_strict
  apply attachAll_keys_nodup
  rw [hf t0 hmem]
  exact List.nodup_nil

/-- Witness for C2: the worked configuration, on fresh tasks. -/
theorem filter_matched_ascending_witness :
    (rangeOrder.asListed exType (matchResult (List String) × List String)).valid ∧
      fresh exTasks ∧
      taskFilter.filter exDecls (rangeOrder.asListed _ _) exFilter exTasks = some exOut ∧
      ∀ t ∈ exOut.returned,
        (t.Matched.map (fun r => r.ContainerIndex)).Pairwise (fun a b => a < b) :=
  ⟨asListed_valid, by unfold fresh; decide, by decide,
    filter_matched_ascending exDecls (rangeOrder.asListed _ _) exFilter exTasks exOut
      asListed_valid (by unfold fresh; decide) (by decide)⟩

/-- C3, as stated, fails twice over: with priority name, port, label and
sub-unit (task 0, container 1) in the result of a matcher of each type, port
comes before label and both matched the sub-unit, yet the record in the output
is not the one the port matcher produced: it is the record of the name matcher,
and the targets of the port and of the label matcher were merged into it, so
the later attaches were not no-ops. -/
theorem filter_priority_counterexample :
    taskFilter.filter exDecls (rangeOrder.asListed _ _) exThree exTasks = some exThreeOut ∧
      exDecls.matcherOrders = [exType.name] ++ exType.port :: [exType.label] ∧
      (⟨0, 1, ["port"]⟩ : matchedContainer (List String)) ∈
        (resultsOfType (invocations exDecls exTasks exThree.matchers) exType.port).flatMap
          (fun res => res.Containers) ∧
      (⟨0, 1, ["label"]⟩ : matchedContainer (List String)) ∈
        (resultsOfType (invocations exDecls exTasks exThree.matchers) exType.label).flatMap
          (fun res => res.Containers) ∧
      exThreeOut.record 0 1 = some ⟨0, 1, ["name", "port", "label"]⟩ ∧
      exThreeOut.record 0 1 ≠ some ⟨0, 1, ["port"]⟩ := by
  refine ⟨by decide, rfl, by decide, by decide, by decide, by decide⟩

/-- C3, amended: on fresh tasks, let A be a type of `matcherOrders()` such that
sub-unit (i, k) is in no result of a type listed before A, and let `cA` be the
first record for (i, k) in the results of the type-A matchers (by configuration
index, then by position in the result). Then the containers for (i, k) in merge
order are `cA` followed by `later`, the further results that hold it (those of
the types after A among them), and the record for (i, k) in the output is `cA`
with the targets of `later` merged into it in that order: a later attach adds
no entry and does not replace the record, it merges its targets into it. -/
theorem filter_priority (P : Decls matcherType targetMatcher σ τ Err)
    (ord : rangeOrder matcherType targetMatcher) (f : taskFilter matcherType targetMatcher)
    (tasks : List (taskAnnotated σ τ)) (out : filterResult σ τ Err) (hv : ord.valid)
    (hw : f.wellFormed) (hf : fresh tasks) (h : taskFilter.filter P ord f tasks = some out)
    (A : matcherType) (before after : List matcherType)
    (hA : P.matcherOrders = before ++ A :: after) (i k : Int) (cA : matchedContainer τ)
    (hbefore : ∀ v ∈ invocations P tasks f.matchers, v.tpe ∈ before →
      ∀ c ∈ v.res.Containers, ¬ (c.TaskIndex = i ∧ c.ContainerIndex = k))
    (hfirst : ((resultsOfType (invocations P tasks f.matchers) A).flatMap
        (fun res => res.Containers)).find?
          (fun c => decide (c.TaskIndex = i ∧ c.ContainerIndex = k)) = some cA) :
    ∃ later,
      (mergeOrder P f tasks).filter (fun c => decide (c.TaskIndex = i ∧ c.ContainerIndex = k))
        = cA :: later ∧
      out.record i k = some (mergeAll cA later) :=
  record_of_first_type P ord f tasks out hv hw hf h A before after hA i k cA hbefore hfirst

/-- Witness for C3 (amended): the port and the label matcher both match
(task 0, container 0), the name matcher does not; the record is the port
matcher's with the targets of the label matcher merged in. -/
theorem filter_priority_witness :
    (rangeOrder.backwards exType (matchResult (List String) × List String)).valid ∧
      exShared.wellFormed ∧ fresh exTasks ∧
      taskFilter.filter exDecls (rangeOrder.backwards _ _) exShared exTasks = some exSharedOut ∧
      exDecls.matcherOrders = [exType.name] ++ exType.port :: [exType.label] ∧
      (∃ later,
        (mergeOrder exDecls exShared exTasks).filter
            (fun c => decide (c.TaskIndex = 0 ∧ c.ContainerIndex = 0))
          = ⟨0, 0, ["port"]⟩ :: later ∧
        exSharedOut.record 0 0 = some (mergeAll ⟨0, 0, ["port"]⟩ later)) ∧
      exSharedOut.record 0 0 = some ⟨0, 0, ["port", "label"]⟩ :=
  ⟨backwards_valid, by unfold taskFilter.wellFormed; decide, by unfold fresh; decide, by decide,
    rfl,
    filter_priority exDecls (rangeOrder.backwards _ _) exShared exTasks exSharedOut
      backwards_valid (by unfold taskFilter.wellFormed; decide) (by unfold fresh; decide)
      (by decide) exType.port [exType.name] [exType.label] rfl 0 0 ⟨0, 0, ["port"]⟩
      (by decide) (by decide),
    by decide⟩

/-- C4, as stated, fails: the name matcher is the only failing matcher and its
error is an aggregate of two errors; the port matcher succeeds and its matches
are in the output, but the aggregated error holds two entries, not exactly
one. -/
theorem filter_partial_failure_counterexample :
    taskFilter.filter exDecls (rangeOrder.asListed _ _) exAggregate exTasks
        = some exAggregateOut ∧
      invocations exDecls exTasks exAggregate.matchers
        = [⟨exType.port, 0, ⟨[0, 1], [⟨0, 0, ["port"]⟩, ⟨1, 0, ["port"]⟩]⟩, []⟩,
            ⟨exType.name, 0, ⟨[], []⟩, ["name: bad label on T0", "name: bad label on T1"]⟩] ∧
      exAggregateOut.merr = ["name: bad label on T0", "name: bad label on T1"] ∧
      exAggregateOut.merr.length ≠ 1 := by
  refine ⟨by decide, by decide, rfl, by decide⟩

/-- C4, amended: in every configuration in which a matcher M returns an error
and a matcher N returns none, whatever the other matchers do, every sub-unit in
the result of N is in the matched list of its task in the output of
`taskFilter.filter` and that task is returned; the aggregated error is not nil
and holds every entry of the error of M; and when M is the only failing matcher
the aggregated error is the error of M, entry for entry (one entry when that
error is a plain error, its parts when it is an aggregate). The priority list
is total over the matcher types, as the spec has it. -/
theorem filter_partial_failure (P : Decls matcherType targetMatcher σ τ Err)
    (ord : rangeOrder matcherType targetMatcher) (f : taskFilter matcherType targetMatcher)
    (tasks : List (taskAnnotated σ τ)) (out : filterResult σ τ Err) (hv : ord.valid)
    (hO : P.ordersTotal) (h : taskFilter.filter P ord f tasks = some out)
    (M N : invocation matcherType τ Err)
    (hMmem : M ∈ invocations P tasks f.matchers) (hM : M.err ≠ [])
    (hNmem : N ∈ invocations P tasks f.matchers) (_hN : N.err = [])
    (c : matchedContainer τ) (hc : c ∈ N.res.Containers) :
    (c.TaskIndex ∈ out.sortedTasks ∧
      ∃ t, index? out.tasks c.TaskIndex = some t ∧ t ∈ out.returned ∧
        c.ContainerIndex ∈ t.Matched.map (fun r => r.ContainerIndex)) ∧
      out.merr ≠ [] ∧ (∀ e ∈ M.err, e ∈ out.merr) ∧
      (∀ others : List (invocation matcherType τ Err),
        (invocations P tasks f.matchers).Perm (M :: others) →
          (∀ v ∈ others, v.err = []) → out.merr = M.err) := by
  have hcs : c ∈ attachSeq P ord f tasks :=
    (mem_attachSeq P ord f tasks hv c).2 ⟨N, hNmem, hO.2 N.tpe, hc⟩
  have hi : c.TaskIndex ∈ out.sortedTasks :=
    (mem_sortedTasks_iff P ord f tasks out hv h _).2 ⟨c, hcs, rfl⟩
  obtain ⟨_, hm, _⟩ := filter_some P ord f tasks out h
  have hMvis : M ∈ invocations P tasks (ord.matchers f.matchers) :=
    (invocations_perm P tasks _ _ (hv.1 f.matchers)).symm.subset hMmem
  have hall : ∀ e ∈ M.err, e ∈ out.merr := by
    intro e he
    rw [hm, List.mem_flatMap]
    exact ⟨M, hMvis, he⟩
  refine ⟨⟨hi, ?_⟩, ?_, hall, ?_⟩
  · obtain ⟨t, ht, hret⟩ := returned_of_mem_sortedTasks P ord f tasks out hv h _ hi
    refine ⟨t, ht, hret, ?_⟩
    rw [matched_keys_iff P ord f tasks out hv h _ hi t ht]
    exact Or.inr ⟨c, hcs, rfl, rfl⟩
  · intro hnil
    obtain ⟨e, he⟩ := List.exists_mem_of_ne_nil _ hM
    have := hall e he
    rw [hnil] at this
    simp at this
  · intro others hsplit hothers
    rw [hm]
    exact flatMap_eq_of_perm_single (fun v => v.err) _ others M
      ((invocations_perm P tasks _ _ (hv.1 f.matchers)).trans hsplit) hothers

/-- Witness for C4 (amended): the name matcher fails with a plain error, the
port matcher succeeds and matches container 0 of T1. -/
theorem filter_partial_failure_witness :
    (rangeOrder.backwards exType (matchResult (List String) × List String)).valid ∧
      exDecls.ordersTotal ∧
      taskFilter.filter exDecls (rangeOrder.backwards _ _) exFailing exTasks
        = some exFailingOut ∧
      invocations exDecls exTasks exFailing.matchers
        = [⟨exType.port, 0, ⟨[0, 1], [⟨0, 0, ["port"]⟩, ⟨1, 0, ["port"]⟩]⟩, []⟩,
            ⟨exType.name, 0, ⟨[], []⟩, ["name failed"]⟩] ∧
      ((1 : Int) ∈ exFailingOut.sortedTasks ∧
        ∃ t, index? exFailingOut.tasks 1 = some t ∧ t ∈ exFailingOut.returned ∧
          (0 : Int) ∈ t.Matched.map (fun r => r.ContainerIndex)) ∧
      exFailingOut.merr ≠ [] ∧ exFailingOut.merr = ["name failed"] :=
  ⟨backwards_valid, ⟨by decide, fun t => by cases t <;> decide⟩, by decide, by decide,
    (filter_partial_failure exDecls (rangeOrder.backwards _ _) exFailing exTasks exFailingOut
      backwards_valid ⟨by decide, fun t => by cases t <;> decide⟩ (by decide)
      ⟨exType.name, 0, ⟨[], []⟩, ["name failed"]⟩
      ⟨exType.port, 0, ⟨[0, 1], [⟨0, 0, ["port"]⟩, ⟨1, 0, ["port"]⟩]⟩, []⟩
      (by decide) (by decide) (by decide) rfl ⟨1, 0, ["port"]⟩ (by decide)).1,
    (filter_partial_failure exDecls (rangeOrder.backwards _ _) exFailing exTasks exFailingOut
      backwards_valid ⟨by decide, fun t => by cases t <;> decide⟩ (by decide)
      ⟨exType.name, 0, ⟨[], []⟩, ["name failed"]⟩
      ⟨exType.port, 0, ⟨[0, 1], [⟨0, 0, ["port"]⟩, ⟨1, 0, ["port"]⟩]⟩, []⟩
      (by decide) (by decide) (by decide) rfl ⟨1, 0, ["port"]⟩ (by decide)).2.1,
    (filter_partial_failure exDecls (rangeOrder.backwards _ _) exFailing exTasks exFailingOut
      backwards_valid ⟨by decide, fun t => by cases t <;> decide⟩ (by decide)
      ⟨exType.name, 0, ⟨[], []⟩, ["name failed"]⟩
      ⟨exType.port, 0, ⟨[0, 1], [⟨0, 0, ["port"]⟩, ⟨1, 0, ["port"]⟩]⟩, []⟩
      (by decide) (by decide) (by decide) rfl ⟨1, 0, ["port"]⟩ (by decide)).2.2.2
      [⟨exType.port, 0, ⟨[0, 1], [⟨0, 0, ["port"]⟩, ⟨1, 0, ["port"]⟩]⟩, []⟩]
      (by decide) (by decide)⟩

/-- C5, exclusion law: a task whose index is the `TaskIndex` of no container in
the result of any configured matcher is not in the list returned by
`taskFilter.filter`. -/
theorem filter_excludes_unmatched (P : Decls matcherType targetMatcher σ τ Err)
    (ord : rangeOrder matcherType targetMatcher) (f : taskFilter matcherType targetMatcher)
    (tasks : List (taskAnnotated σ τ)) (out : filterResult σ τ Err) (hv : ord.valid)
    (h : taskFilter.filter P ord f tasks = some out) (i : Int)
    (hno : ∀ v ∈ invocations P tasks f.matchers, ∀ c ∈ v.res.Containers, c.TaskIndex ≠ i) :
    i ∉ out.sortedTasks := by
  intro hi
  obtain ⟨c, hc, hk⟩ := (mem_sortedTasks_iff P ord f tasks out hv h i).1 hi
  obtain ⟨v, hv1, _, hv3⟩ := (mem_attachSeq P ord f tasks hv c).1 hc
  exact hno v hv1 c hv3 hk

/-- Witness for C5: in the three-type configuration no matcher matches a
container of T1, and T1 is not returned. -/
theorem filter_excludes_unmatched_witness :
    (rangeOrder.asListed exType (matchResult (List String) × List String)).valid ∧
      taskFilter.filter exDecls (rangeOrder.asListed _ _) exThree exTasks = some exThreeOut ∧
      (∀ v ∈ invocations exDecls exTasks exThree.matchers, ∀ c ∈ v.res.Containers,
        c.TaskIndex ≠ 1) ∧
      (1 : Int) ∉ exThreeOut.sortedTasks :=
  ⟨asListed_valid, by decide, by decide,
    filter_excludes_unmatched exDecls (rangeOrder.asListed _ _) exThree exTasks exThreeOut
      asListed_valid (by decide) 1 (by decide)⟩

/-- C6: `taskFilter.filter` returns all the tasks with a matched container: for
every configured matcher and every container in its result, the task at the
container's `TaskIndex` is in the returned list. The priority list is total
over the matcher types, as the spec has it. -/
theorem filter_returns_matched (P : Decls matcherType targetMatcher σ τ Err)
    (ord : rangeOrder matcherType targetMatcher) (f : taskFilter matcherType targetMatcher)
    (tasks : List (taskAnnotated σ τ)) (out : filterResult σ τ Err) (hv : ord.valid)
    (hO : P.ordersTotal) (h : taskFilter.filter P ord f tasks = some out)
    (v : invocation matcherType τ Err) (hmem : v ∈ invocations P tasks f.matchers)
    (c : matchedContainer τ) (hc : c ∈ v.res.Containers) :
    c.TaskIndex ∈ out.sortedTasks ∧
      ∃ t, index? out.tasks c.TaskIndex = some t ∧ t ∈ out.returned := by
  have hcs : c ∈ attachSeq P ord f tasks :=
    (mem_attachSeq P ord f tasks hv c).2 ⟨v, hmem, hO.2 v.tpe, hc⟩
  have hi : c.TaskIndex ∈ out.sortedTasks :=
    (mem_sortedTasks_iff P ord f tasks out hv h _).2 ⟨c, hcs, rfl⟩
  exact ⟨hi, returned_of_mem_sortedTasks P ord f tasks out hv h _ hi⟩

/-- Witness for C6: the port matcher of the worked configuration matches
container 0 of T1, and T1 is returned. -/
theorem filter_returns_matched_witness :
    (rangeOrder.asListed exType (matchResult (List String) × List String)).valid ∧
      exDecls.ordersTotal ∧
      taskFilter.filter exDecls (rangeOrder.asListed _ _) exFilter exTasks = some exOut ∧
      (1 : Int) ∈ exOut.sortedTasks ∧
      ∃ t, index? exOut.tasks 1 = some t ∧ t ∈ exOut.returned :=
  ⟨asListed_valid, ⟨by decide, fun t => by cases t <;> decide⟩, by decide,
    filter_returns_matched exDecls (rangeOrder.asListed _ _) exFilter exTasks exOut
      asListed_valid ⟨by decide, fun t => by cases t <;> decide⟩ (by decide)
      ⟨exType.port, 0, ⟨[0, 1], [⟨0, 0, ["port"]⟩, ⟨1, 0, ["port"]⟩]⟩, []⟩ (by decide)
      ⟨1, 0, ["port"]⟩ (by decide)⟩

/-- C7: on tasks that start with empty matched lists, in each task returned by
`taskFilter.filter` the set of matched sub-unit identities is the union, over
the results of all configured matchers, of the `ContainerIndex` values of the
containers whose `TaskIndex` is that task: nothing matched is lost, nothing
unmatched is added. The priority list is total over the matcher types, as the
spec has it. -/
theorem filter_matched_union (P : Decls matcherType targetMatcher σ τ Err)
    (ord : rangeOrder matcherType targetMatcher) (f : taskFilter matcherType targetMatcher)
    (tasks : List (taskAnnotated σ τ)) (out : filterResult σ τ Err) (hv : ord.valid)
    (hO : P.ordersTotal) (hf : fresh tasks) (h : taskFilter.filter P ord f tasks = some out)
    (i : Int) (hi : i ∈ out.sortedTasks) (t : taskAnnotated σ τ)
    (ht : index? out.tasks i = some t) (k : Int) :
    k ∈ t.Matched.map (fun r => r.ContainerIndex) ↔
      ∃ v ∈ invocations P tasks f.matchers, ∃ c ∈ v.res.Containers,
        c.TaskIndex = i ∧ c.ContainerIndex = k := by
  rw [matched_keys_iff P ord f tasks out hv h i hi t ht k]
  constructor
  · rintro (⟨t0, ht0, hk⟩ | ⟨c, hc, hci, hck⟩)
    · have hmem : t0 ∈ tasks := List.mem_iff_getElem?.2 ⟨_, ((index?_eq_some _ _ _).1 ht0).2⟩
      rw [hf t0 hmem] at hk
      simp at hk
    · obtain ⟨v, hv1, _, hv3⟩ := (mem_attachSeq P ord f tasks hv c).1 hc
      exact ⟨v, hv1, c, hv3, hci, hck⟩
  · rintro ⟨v, hv1, c, hc, hci, hck⟩
    exact Or.inr ⟨c, (mem_attachSeq P ord f tasks hv c).2 ⟨v, hv1, hO.2 v.tpe, hc⟩, hci, hck⟩

/-- Witness for C7: task 0 of the worked configuration, sub-unit 1. -/
theorem filter_matched_union_witness :
    (rangeOrder.asListed exType (matchResult (List String) × List String)).valid ∧
      exDecls.ordersTotal ∧ fresh exTasks ∧
      taskFilter.filter exDecls (rangeOrder.asListed _ _) exFilter exTasks = some exOut ∧
      (0 : Int) ∈ exOut.sortedTasks ∧
      index? exOut.tasks 0 = some ⟨"T0", [⟨0, 0, ["port"]⟩, ⟨0, 1, ["name"]⟩]⟩ ∧
      ((1 : Int) ∈ [(0 : Int), 1] ↔
        ∃ v ∈ invocations exDecls exTasks exFilter.matchers, ∃ c ∈ v.res.Containers,
          c.TaskIndex = 0 ∧ c.ContainerIndex = 1) :=
  ⟨asListed_valid, ⟨by decide, fun t => by cases t <;> decide⟩, by unfold fresh; decide,
    by decide, by decide, by decide,
    filter_matched_union exDecls (rangeOrder.asListed _ _) exFilter exTasks exOut
      asListed_valid ⟨by decide, fun t => by cases t <;> decide⟩ (by unfold fresh; decide)
      (by decide) 0 (by decide) ⟨"T0", [⟨0, 0, ["port"]⟩, ⟨0, 1, ["name"]⟩]⟩ (by decide) 1⟩

/-- C8, deterministic output: for the same tasks and the same matcher map, the
returned pointers, the task objects after the call and hence the returned task
list with its matched lists are the same for any two orders in which the
matcher-type map and the set of touched tasks are iterated (and one run panics
exactly when the other does). -/
theorem filter_deterministic (P : Decls matcherType targetMatcher σ τ Err)
    (ord₁ ord₂ : rangeOrder matcherType targetMatcher) (f : taskFilter matcherType targetMatcher)
    (tasks : List (taskAnnotated σ τ)) (hv₁ : ord₁.valid) (hv₂ : ord₂.valid)
    (hw : f.wellFormed) :
    (taskFilter.filter P ord₁ f tasks).map (fun out => (out.sortedTasks, out.tasks, out.returned))
      = (taskFilter.filter P ord₂ f tasks).map
          (fun out => (out.sortedTasks, out.tasks, out.returned)) := by
  have hmatched : (fun t => ([] : List (matchResult τ))
        ++ resultsOfType (invocations P tasks (ord₁.matchers f.matchers)) t)
      = (fun t => ([] : List (matchResult τ))
        ++ resultsOfType (invocations P tasks (ord₂.matchers f.matchers)) t) := by
    funext t
    rw [resultsOfType_perm P tasks _ _ (hv₁.1 f.matchers) hw t,
      resultsOfType_perm P tasks _ _ (hv₂.1 f.matchers) hw t]
  unfold taskFilter.filter
  rw [runTypes_eq, runTypes_eq]
  simp only [hmatched]
  cases attachTypes (fun t => ([] : List (matchResult τ))
      ++ resultsOfType (invocations P tasks (ord₂.matchers f.matchers)) t) P.matcherOrders
      (⟨[], tasks⟩ : mergeState σ τ) with
  | none => rfl
  | some st =>
    simp only
    rw [sortInts_eq_of_perm _ _ ((hv₁.2 st.matchedTasks).trans (hv₂.2 st.matchedTasks).symm)]
    cases sortTasks (sortInts (ord₂.matchedTasks st.matchedTasks)) st.tasks [] with
    | none => rfl
    | some res => rfl

/-- Witness for C8: the worked configuration visited as listed and backwards. -/
theorem filter_deterministic_witness :
    (rangeOrder.asListed exType (matchResult (List String) × List String)).valid ∧
      (rangeOrder.backwards exType (matchResult (List String) × List String)).valid ∧
      exFilter.wellFormed ∧
      (taskFilter.filter exDecls (rangeOrder.asListed _ _) exFilter exTasks).map
          (fun out => (out.sortedTasks, out.tasks, out.returned))
        = (taskFilter.filter exDecls (rangeOrder.backwards _ _) exFilter exTasks).map
            (fun out => (out.sortedTasks, out.tasks, out.returned)) :=
  ⟨asListed_valid, backwards_valid, by unfold taskFilter.wellFormed; decide,
    filter_deterministic exDecls (rangeOrder.asListed _ _) (rangeOrder.backwards _ _) exFilter
      exTasks asListed_valid backwards_valid (by unfold taskFilter.wellFormed; decide)⟩

/-- C9, as stated, fails: when the port and the name matcher both fail, visiting
the matcher map as listed records the port failure first, visiting it backwards
records the name failure first. -/
theorem filter_error_order_counterexample :
    (rangeOrder.asListed exType (matchResult (List String) × List String)).valid ∧
      (rangeOrder.backwards exType (matchResult (List String) × List String)).valid ∧
      exBothFail.wellFormed ∧
      (taskFilter.filter exDecls (rangeOrder.asListed _ _) exBothFail exTasks).map
          (fun out => out.merr) = some ["port failed", "name failed"] ∧
      (taskFilter.filter exDecls (rangeOrder.backwards _ _) exBothFail exTasks).map
          (fun out => out.merr) = some ["name failed", "port failed"] ∧
      (taskFilter.filter exDecls (rangeOrder.asListed _ _) exBothFail exTasks).map
          (fun out => out.merr)
        ≠ (taskFilter.filter exDecls (rangeOrder.backwards _ _) exBothFail exTasks).map
            (fun out => out.merr) :=
  ⟨asListed_valid, backwards_valid, by unfold taskFilter.wellFormed; decide, by decide,
    by decide, by decide⟩

/-- C9, amended: the aggregated error is a function of the tasks and the matcher
configuration up to the order of its entries. Its entries are those of the
errors of the invocations in the order the matcher map was visited (within a
type, by configuration index), so two runs that visit the map in different orders record
the same failures, each as often, possibly in another order. -/
theorem filter_error_perm (P : Decls matcherType targetMatcher σ τ Err)
    (ord₁ ord₂ : rangeOrder matcherType targetMatcher) (f : taskFilter matcherType targetMatcher)
    (tasks : List (taskAnnotated σ τ)) (out₁ out₂ : filterResult σ τ Err)
    (hv₁ : ord₁.valid) (hv₂ : ord₂.valid)
    (h₁ : taskFilter.filter P ord₁ f tasks = some out₁)
    (h₂ : taskFilter.filter P ord₂ f tasks = some out₂) :
    out₁.merr.Perm out₂.merr ∧
      out₁.merr = (invocations P tasks (ord₁.matchers f.matchers)).flatMap (fun v => v.err) ∧
      out₂.merr = (invocations P tasks (ord₂.matchers f.matchers)).flatMap (fun v => v.err) := by
  obtain ⟨_, hm₁, _⟩ := filter_some P ord₁ f tasks out₁ h₁
  obtain ⟨_, hm₂, _⟩ := filter_some P ord₂ f tasks out₂ h₂
  refine ⟨?_, hm₁, hm₂⟩
  rw [hm₁, hm₂]
  apply List.Perm.flatMap_right
  exact (invocations_perm P tasks _ _ (hv₁.1 f.matchers)).trans
    (invocations_perm P tasks _ _ (hv₂.1 f.matchers)).symm

/-- Witness for C9 (amended): both matchers fail; as listed against backwards. -/
theorem filter_error_perm_witness :
    (rangeOrder.asListed exType (matchResult (List String) × List String)).valid ∧
      (rangeOrder.backwards exType (matchResult (List String) × List String)).valid ∧
      taskFilter.filter exDecls (rangeOrder.asListed _ _) exBothFail exTasks
        = some ⟨[], ["port failed", "name failed"], exTasks⟩ ∧
      taskFilter.filter exDecls (rangeOrder.backwards _ _) exBothFail exTasks
        = some ⟨[], ["name failed", "port failed"], exTasks⟩ ∧
      ["port failed", "name failed"].Perm ["name failed", "port failed"] :=
  ⟨asListed_valid, backwards_valid, by decide, by decide,
    (filter_error_perm exDecls (rangeOrder.asListed _ _) (rangeOrder.backwards _ _) exBothFail
      exTasks ⟨[], ["port failed", "name failed"], exTasks⟩
      ⟨[], ["name failed", "port failed"], exTasks⟩ asListed_valid backwards_valid
      (by decide) (by decide)).1⟩

/-- C10, as stated, fails: one invocation fails, with an aggregate of two
errors, and the error returned by `taskFilter.filter` holds two entries for
that one failing invocation. -/
theorem filter_error_nil_iff_counterexample :
    taskFilter.filter exDecls (rangeOrder.asListed _ _) exAggregate exTasks
        = some exAggregateOut ∧
      (invocations exDecls exTasks exAggregate.matchers).countP
        (fun v => !v.err.isEmpty) = 1 ∧
      exAggregateOut.merr.length = 2 := by
  refine ⟨by decide, by decide, rfl⟩

/-- C10, amended: the error returned by `taskFilter.filter` is nil exactly when
every matcher invocation returned a nil error; in general its entries are the
entries of the errors of the failing invocations and nothing else, an aggregate
error contributing each of its entries; when every failing invocation returned
a plain error there is one entry per failing invocation. -/
theorem filter_error_nil_iff (P : Decls matcherType targetMatcher σ τ Err)
    (ord : rangeOrder matcherType targetMatcher) (f : taskFilter matcherType targetMatcher)
    (tasks : List (taskAnnotated σ τ)) (out : filterResult σ τ Err) (hv : ord.valid)
    (h : taskFilter.filter P ord f tasks = some out) :
    (out.merr = [] ↔ ∀ v ∈ invocations P tasks f.matchers, v.err = []) ∧
      out.merr.Perm ((invocations P tasks f.matchers).flatMap (fun v => v.err)) ∧
      ((∀ v ∈ invocations P tasks f.matchers, v.err.length ≤ 1) →
        out.merr.length
          = (invocations P tasks f.matchers).countP (fun v => !v.err.isEmpty)) := by
  obtain ⟨_, hm, _⟩ := filter_some P ord f tasks out h
  have hp : out.merr.Perm ((invocations P tasks f.matchers).flatMap (fun v => v.err)) := by
    rw [hm]
    exact List.Perm.flatMap_right _ (invocations_perm P tasks _ _ (hv.1 f.matchers))
  refine ⟨?_, hp, ?_⟩
  · rw [← List.flatMap_eq_nil_iff]
    constructor
    · intro h0
      rw [h0] at hp
      exact List.nil_perm.1 hp
    · intro h0
      rw [h0] at hp
      exact List.perm_nil.1 hp
  · intro hone
    rw [hp.length_eq]
    exact length_flatMap_of_le_one
      (fun v : invocation matcherType τ Err => v.err) _ hone

/-- Witness for C10 (amended): the name matcher fails with a plain error, the
port matcher does not. -/
theorem filter_error_nil_iff_witness :
    (rangeOrder.asListed exType (matchResult (List String) × List String)).valid ∧
      taskFilter.filter exDecls (rangeOrder.asListed _ _) exFailing exTasks
        = some exFailingOut ∧
      (exFailingOut.merr = [] ↔
        ∀ v ∈ invocations exDecls exTasks exFailing.matchers, v.err = []) ∧
      exFailingOut.merr.Perm
        ((invocations exDecls exTasks exFailing.matchers).flatMap (fun v => v.err)) ∧
      (∀ v ∈ invocations exDecls exTasks exFailing.matchers, v.err.length ≤ 1) ∧
      exFailingOut.merr.length
        = (invocations exDecls exTasks exFailing.matchers).countP
            (fun v => !v.err.isEmpty) :=
  ⟨asListed_valid, by decide,
    (filter_error_nil_iff exDecls (rangeOrder.asListed _ _) exFailing exTasks exFailingOut
      asListed_valid (by decide)).1,
    (filter_error_nil_iff exDecls (rangeOrder.asListed _ _) exFailing exTasks exFailingOut
      asListed_valid (by decide)).2.1,
    by decide,
    (filter_error_nil_iff exDecls (rangeOrder.asListed _ _) exFailing exTasks exFailingOut
      asListed_valid (by decide)).2.2 (by decide)⟩

/-- C11, a failure never suppresses results: two configurations whose
invocations return the same match results, whatever errors come with them, make
`taskFilter.filter` return the same pointers and leave the same task objects,
so the same ordered task list with the same matched lists. -/
theorem filter_errors_irrelevant (P₁ P₂ : Decls matcherType targetMatcher σ τ Err)
    (ord₁ ord₂ : rangeOrder matcherType targetMatcher)
    (f₁ f₂ : taskFilter matcherType targetMatcher) (tasks : List (taskAnnotated σ τ))
    (hv₁ : ord₁.valid) (hv₂ : ord₂.valid) (hw₁ : f₁.wellFormed) (hw₂ : f₂.wellFormed)
    (horders : P₁.matcherOrders = P₂.matcherOrders)
    (hres : (invocations P₁ tasks f₁.matchers).map (fun v => (v.tpe, v.index, v.res))
      = (invocations P₂ tasks f₂.matchers).map (fun v => (v.tpe, v.index, v.res))) :
    (taskFilter.filter P₁ ord₁ f₁ tasks).map
        (fun out => (out.sortedTasks, out.tasks, out.returned))
      = (taskFilter.filter P₂ ord₂ f₂ tasks).map
          (fun out => (out.sortedTasks, out.tasks, out.returned)) := by
  apply filter_map_eq P₁ P₂ ord₁ ord₂ f₁ f₂ tasks horders
  · intro t
    rw [resultsOfType_perm P₁ tasks _ _ (hv₁.1 f₁.matchers) hw₁ t,
      resultsOfType_perm P₂ tasks _ _ (hv₂.1 f₂.matchers) hw₂ t]
    exact resultsOfType_eq_of_map _ _ hres t
  · intro l
    exact (hv₁.2 l).trans (hv₂.2 l).symm

/-- Witness for C11: the worked configuration, and the same with the name
matcher reporting an error next to its result. -/
theorem filter_errors_irrelevant_witness :
    (rangeOrder.asListed exType (matchResult (List String) × List String)).valid ∧
      exFilter.wellFormed ∧ exFilterErr.wellFormed ∧
      (invocations exDecls exTasks exFilter.matchers).map (fun v => (v.tpe, v.index, v.res))
        = (invocations exDecls exTasks exFilterErr.matchers).map
            (fun v => (v.tpe, v.index, v.res)) ∧
      (taskFilter.filter exDecls (rangeOrder.asListed _ _) exFilterErr exTasks).map
          (fun out => out.merr) = some ["name failed"] ∧
      (taskFilter.filter exDecls (rangeOrder.asListed _ _) exFilter exTasks).map
          (fun out => (out.sortedTasks, out.tasks, out.returned))
        = (taskFilter.filter exDecls (rangeOrder.asListed _ _) exFilterErr exTasks).map
            (fun out => (out.sortedTasks, out.tasks, out.returned)) :=
  ⟨asListed_valid, by unfold taskFilter.wellFormed; decide,
    by unfold taskFilter.wellFormed; decide, by decide, by decide,
    filter_errors_irrelevant exDecls exDecls (rangeOrder.asListed _ _) (rangeOrder.asListed _ _)
      exFilter exFilterErr exTasks asListed_valid asListed_valid
      (by unfold taskFilter.wellFormed; decide) (by unfold taskFilter.wellFormed; decide) rfl
      (by decide)⟩

/-- C12, worked example: tasks T0 (containers C0, C1) and T1 (container C2, its
container 0); the higher-priority name matcher returns C1 of T0, the
lower-priority port matcher returns C0 of T0 and C2 of T1, both without error.
In whatever order the maps are visited, `taskFilter.filter` returns T0 with
matched C0 (port record) then C1 (name record), then T1 with matched C2, and a
nil error. -/
theorem filter_worked_example (ord : rangeOrder exType (matchResult (List String) × List String))
    (hv : ord.valid) :
    taskFilter.filter exDecls ord exFilter exTasks = some exOut ∧
      exOut.returned
        = [⟨"T0", [⟨0, 0, ["port"]⟩, ⟨0, 1, ["name"]⟩]⟩, ⟨"T1", [⟨1, 0, ["port"]⟩]⟩] ∧
      exOut.sortedTasks = [0, 1] ∧ exOut.merr = [] := by
  refine ⟨?_, by decide, rfl, rfl⟩
  have hw : exFilter.wellFormed := by unfold taskFilter.wellFormed; decide
  have hmap := filter_map_eq exDecls exDecls ord (rangeOrder.asListed _ _) exFilter exFilter
    exTasks rfl
    (fun t => by
      rw [resultsOfType_perm exDecls exTasks _ _ (hv.1 exFilter.matchers) hw t,
        resultsOfType_perm exDecls exTasks _ _ (asListed_valid.1 exFilter.matchers) hw t])
    (fun l => (hv.2 l).trans (asListed_valid.2 l).symm)
  have hlisted : taskFilter.filter exDecls (rangeOrder.asListed _ _) exFilter exTasks
      = some exOut := by decide
  rw [hlisted] at hmap
  cases hout : taskFilter.filter exDecls ord exFilter exTasks with
  | none => rw [hout] at hmap; simp at hmap
  | some out =>
    rw [hout] at hmap
    simp only [Option.map_some', Option.some.injEq, Prod.mk.injEq] at hmap
    obtain ⟨hs, ht, _⟩ := hmap
    obtain ⟨_, hm, _⟩ := filter_some exDecls ord exFilter exTasks out hout
    have hp : out.merr.Perm
        ((invocations exDecls exTasks exFilter.matchers).flatMap (fun v => v.err)) := by
      rw [hm]
      exact List.Perm.flatMap_right _ (invocations_perm exDecls exTasks _ _ (hv.1 exFilter.matchers))
    have hnil : (invocations exDecls exTasks exFilter.matchers).flatMap (fun v => v.err)
        = [] := by decide
    rw [hnil] at hp
    have hmerr : out.merr = [] := List.perm_nil.1 hp
    obtain ⟨s1, m1, t1⟩ := out
    simp only at hs ht hmerr
    subst hs; subst ht; subst hmerr
    rfl

/-- Witness for C12: the maps visited backwards. -/
theorem filter_worked_example_witness :
    (rangeOrder.backwards exType (matchResult (List String) × List String)).valid ∧
      taskFilter.filter exDecls (rangeOrder.backwards _ _) exFilter exTasks = some exOut ∧
      exOut.returned
        = [⟨"T0", [⟨0, 0, ["port"]⟩, ⟨0, 1, ["name"]⟩]⟩, ⟨"T1", [⟨1, 0, ["port"]⟩]⟩] ∧
      exOut.sortedTasks = [0, 1] ∧ exOut.merr = [] :=
  ⟨backwards_valid, filter_worked_example (rangeOrder.backwards _ _) backwards_valid⟩

/-- C13, merge order: in whatever order the matcher types were executed, the
sequence of `AddMatchedContainer` calls of a run that returns is exactly the
containers of the results by type in the order of `matcherOrders()`, within a
type by ascending configuration index, within a result in the order of the
result; a run that panics made an initial part of that sequence. The logged
function is `taskFilter.filter` with the calls written down. -/
theorem filter_merge_order (P : Decls matcherType targetMatcher σ τ Err)
    (ord : rangeOrder matcherType targetMatcher) (f : taskFilter matcherType targetMatcher)
    (tasks : List (taskAnnotated σ τ)) (hv : ord.valid) (hw : f.wellFormed) :
    (taskFilter.filterLogged P ord f tasks).result = taskFilter.filter P ord f tasks ∧
      (∃ rest,
        (taskFilter.filterLogged P ord f tasks).attached ++ rest = mergeOrder P f tasks) ∧
      ((taskFilter.filter P ord f tasks).isSome →
        (taskFilter.filterLogged P ord f tasks).attached = mergeOrder P f tasks) := by
  obtain ⟨hres, _, _, hatt⟩ := filterLogged_spec P ord f tasks
  have hseq : attachSeq P ord f tasks = mergeOrder P f tasks := by
    rw [attachSeq_canonical P ord f tasks hv hw, mergeSeq_eq_mergeOrder P f tasks hw]
  obtain ⟨⟨rest, hrest⟩, hfull⟩ := attachContainersLogged_snd (attachSeq P ord f tasks)
    (⟨[], tasks⟩ : mergeState σ τ) []
  rw [List.nil_append] at hrest hfull
  refine ⟨hres, ⟨rest, ?_⟩, ?_⟩
  · rw [hatt, hrest, hseq]
  · intro hsome
    obtain ⟨out, hout⟩ := Option.isSome_iff_exists.1 hsome
    obtain ⟨hb, _⟩ := filter_some P ord f tasks out hout
    have hin : inBounds tasks.length (attachSeq P ord f tasks) := hb
    rw [hatt, hfull (attachContainers_isSome _ (⟨[], tasks⟩ : mergeState σ τ) hin), hseq]

/-- Witness for C13: the label entry is visited first, yet the name record is
attached first, then the port record, then the label record. -/
theorem filter_merge_order_witness :
    (rangeOrder.asListed exType (matchResult (List String) × List String)).valid ∧
      exShared.wellFormed ∧
      (taskFilter.filter exDecls (rangeOrder.asListed _ _) exShared exTasks).isSome ∧
      mergeOrder exDecls exShared exTasks
        = [⟨0, 1, ["name"]⟩, ⟨0, 0, ["port"]⟩, ⟨0, 0, ["label"]⟩] ∧
      (taskFilter.filterLogged exDecls (rangeOrder.asListed _ _) exShared exTasks).attached
        = mergeOrder exDecls exShared exTasks :=
  ⟨asListed_valid, by unfold taskFilter.wellFormed; decide, by decide, by decide,
    (filter_merge_order exDecls (rangeOrder.asListed _ _) exShared exTasks asListed_valid
      (by unfold taskFilter.wellFormed; decide)).2.2 (by decide)⟩

/-- C14, no short-circuit: whatever errors the invocations return, and whether
or not the attach loop panics later, a run calls `matchContainers` for every
configured (type, configuration index) pair exactly once, on the complete task
list and with the index of the matcher, and keeps one result per call: for each
type the results of its matchers, in configuration order. The logged function
is `taskFilter.filter` with the calls written down. -/
theorem filter_invokes_all (P : Decls matcherType targetMatcher σ τ Err)
    (ord : rangeOrder matcherType targetMatcher) (f : taskFilter matcherType targetMatcher)
    (tasks : List (taskAnnotated σ τ)) (hv : ord.valid) (hw : f.wellFormed) :
    (taskFilter.filterLogged P ord f tasks).result = taskFilter.filter P ord f tasks ∧
      (taskFilter.filterLogged P ord f tasks).calls.Perm (configuredCalls tasks f.matchers) ∧
      (∀ c ∈ (taskFilter.filterLogged P ord f tasks).calls, c.tasks = tasks) ∧
      (∀ e ∈ f.matchers, ∀ i, i < e.2.length →
        (taskFilter.filterLogged P ord f tasks).calls.countP
          (fun c => decide ((c.tpe, c.index) = (e.1, i))) = 1) ∧
      (∀ tpe, (taskFilter.filterLogged P ord f tasks).matched tpe
        = (f.matchersOf tpe).enum.map (fun im => (P.matchContainers tasks im.2 im.1).1)) ∧
      (∀ e ∈ f.matchers,
        ((taskFilter.filterLogged P ord f tasks).matched e.1).length = e.2.length) := by
  obtain ⟨hres, hcalls, hmatched, _⟩ := filterLogged_spec P ord f tasks
  have hperm : (taskFilter.filterLogged P ord f tasks).calls.Perm
      (configuredCalls tasks f.matchers) := by
    rw [hcalls]
    exact List.Perm.flatMap_right _ (hv.1 f.matchers)
  have hm : ∀ tpe, (taskFilter.filterLogged P ord f tasks).matched tpe
      = (f.matchersOf tpe).enum.map (fun im => (P.matchContainers tasks im.2 im.1).1) := by
    intro tpe
    rw [hmatched]
    simp only
    rw [resultsOfType_perm P tasks _ _ (hv.1 f.matchers) hw tpe,
      resultsOfType_lookup P tasks f.matchers hw tpe]
    rfl
  refine ⟨hres, hperm, ?_, ?_, hm, ?_⟩
  · intro c hc
    exact configuredCalls_tasks tasks f.matchers c (hperm.subset hc)
  · intro e he i hi
    rw [hperm.countP_eq]
    have h1 := countP_eq_one_of_mem _ (e.1, i) (configuredCalls_keys_nodup tasks f.matchers hw)
      (mem_configuredCalls_keys tasks f.matchers e he i hi)
    rw [List.countP_map] at h1
    exact h1
  · intro e he
    rw [hm e.1]
    have hlook : f.matchers.lookup e.1 = some e.2 := lookup_of_mem f.matchers hw e.1 e.2 he
    simp [taskFilter.matchersOf, hlook, List.enum_length]

/-- Witness for C14: the name matcher fails; both matchers are called once and
both results are kept. -/
theorem filter_invokes_all_witness :
    (rangeOrder.backwards exType (matchResult (List String) × List String)).valid ∧
      exFailing.wellFormed ∧
      (taskFilter.filterLogged exDecls (rangeOrder.backwards _ _) exFailing exTasks).calls.map
          (fun c => (c.tpe, c.index)) = [(exType.name, 0), (exType.port, 0)] ∧
      (taskFilter.filterLogged exDecls (rangeOrder.backwards _ _) exFailing exTasks).calls.Perm
        (configuredCalls exTasks exFailing.matchers) ∧
      (∀ tpe,
        (taskFilter.filterLogged exDecls (rangeOrder.backwards _ _) exFailing exTasks).matched tpe
          = (exFailing.matchersOf tpe).enum.map
              (fun im => (exDecls.matchContainers exTasks im.2 im.1).1)) :=
  ⟨backwards_valid, by unfold taskFilter.wellFormed; decide, by decide,
    (filter_invokes_all exDecls (rangeOrder.backwards _ _) exFailing exTasks backwards_valid
      (by unfold taskFilter.wellFormed; decide)).2.1,
    (filter_invokes_all exDecls (rangeOrder.backwards _ _) exFailing exTasks backwards_valid
      (by unfold taskFilter.wellFormed; decide)).2.2.2.2.1⟩

/-- C15, frame: `taskFilter.filter` only annotates. After a call that returns,
the task list has its length, every position holds the task it held (same
`Task`, only `Matched` may differ), and a task whose index is the `TaskIndex`
of no container of any result is exactly as it was before the call. -/
theorem filter_frame (P : Decls matcherType targetMatcher σ τ Err)
    (ord : rangeOrder matcherType targetMatcher) (f : taskFilter matcherType targetMatcher)
    (tasks : List (taskAnnotated σ τ)) (out : filterResult σ τ Err) (hv : ord.valid)
    (h : taskFilter.filter P ord f tasks = some out) :
    out.tasks.length = tasks.length ∧
      ∀ (n : Nat) (t0 : taskAnnotated σ τ), tasks[n]? = some t0 →
        ∃ t, out.tasks[n]? = some t ∧ t.Task = t0.Task ∧
          ((∀ v ∈ invocations P tasks f.matchers, ∀ c ∈ v.res.Containers,
              c.TaskIndex ≠ (n : Int)) → t = t0) := by
  obtain ⟨_, _, _, hl, ht⟩ := filter_some P ord f tasks out h
  refine ⟨hl, ?_⟩
  intro n t0 hn
  have hseq : mergeSeq P.matcherOrders (invocations P tasks (ord.matchers f.matchers))
      = attachSeq P ord f tasks := rfl
  rw [hseq] at ht
  refine ⟨_, by rw [ht n, hn]; rfl, ?_, ?_⟩
  · simp only
    split
    · exact attachAll_Task t0 _
    · exact attachAll_Task t0 _
  · intro hno
    have hnot : (n : Int) ∉ out.sortedTasks := by
      intro hi
      obtain ⟨c, hc, hk⟩ := (mem_sortedTasks_iff P ord f tasks out hv h _).1 hi
      obtain ⟨v, hv1, _, hv3⟩ := (mem_attachSeq P ord f tasks hv c).1 hc
      exact hno v hv1 c hv3 hk
    have hnil : containersOf n (attachSeq P ord f tasks) = [] := by
      unfold containersOf
      rw [List.filter_eq_nil_iff]
      intro c hc hk
      obtain ⟨v, hv1, _, hv3⟩ := (mem_attachSeq P ord f tasks hv c).1 hc
      exact hno v hv1 c hv3 (of_decide_eq_true hk)
    simp only [if_neg hnot, hnil]
    rfl

/-- Witness for C15: in the three-type configuration T1 is matched by nothing
and is left as it was; T0 keeps its `Task`. -/
theorem filter_frame_witness :
    (rangeOrder.asListed exType (matchResult (List String) × List String)).valid ∧
      taskFilter.filter exDecls (rangeOrder.asListed _ _) exThree exTasks = some exThreeOut ∧
      exThreeOut.tasks.length = exTasks.length ∧
      exTasks[1]? = some ⟨"T1", []⟩ ∧
      (∀ v ∈ invocations exDecls exTasks exThree.matchers, ∀ c ∈ v.res.Containers,
        c.TaskIndex ≠ ((1 : Nat) : Int)) ∧
      ∃ t, exThreeOut.tasks[1]? = some t ∧ t.Task = "T1" ∧
        ((∀ v ∈ invocations exDecls exTasks exThree.matchers, ∀ c ∈ v.res.Containers,
            c.TaskIndex ≠ ((1 : Nat) : Int)) → t = ⟨"T1", []⟩) :=
  ⟨asListed_valid, by decide,
    (filter_frame exDecls (rangeOrder.asListed _ _) exThree exTasks exThreeOut asListed_valid
      (by decide)).1, by decide, by decide,
    (filter_frame exDecls (rangeOrder.asListed _ _) exThree exTasks exThreeOut asListed_valid
      (by decide)).2 1 ⟨"T1", []⟩ (by decide)⟩

/-- C16, as stated, fails: three name matchers (the highest-priority type) with
configuration indices 0, 1, 2 all match (task 0, container 1); the sub-unit is
in the results of the matchers with indices 1 < 2 and of no higher-priority
type, yet the record in the output is not the one the matcher of index 1
produced: it is the record of index 0, and the targets of the matchers of
index 1 and 2 were merged into it. -/
theorem filter_index_priority_counterexample :
    taskFilter.filter exDecls (rangeOrder.asListed _ _) exSameType exTasks
        = some exSameTypeOut ∧
      exDecls.matcherOrders = [] ++ exType.name :: [exType.port, exType.label] ∧
      (∃ v ∈ invocations exDecls exTasks exSameType.matchers,
        v.tpe = exType.name ∧ v.index = 1 ∧ v.res.Containers = [⟨0, 1, ["name-1"]⟩]) ∧
      (∃ v ∈ invocations exDecls exTasks exSameType.matchers,
        v.tpe = exType.name ∧ v.index = 2 ∧ v.res.Containers = [⟨0, 1, ["name-2"]⟩]) ∧
      exSameTypeOut.record 0 1 = some ⟨0, 1, ["name-0", "name-1", "name-2"]⟩ ∧
      exSameTypeOut.record 0 1 ≠ some ⟨0, 1, ["name-1"]⟩ := by
  refine ⟨by decide, rfl, by decide, by decide, by decide, by decide⟩

/-- C16, amended: on fresh tasks, let sub-unit (t, k) be in no result of a type
listed before A, and among the matchers configured under A let the one with
configuration index i be the first whose result holds (t, k), `cI` being the
first record for it in that result. Then the containers for (t, k) in merge
order are `cI` followed by `later`, the further results that hold it (those of
the matchers of A with a higher index among them), and the record for (t, k)
in the output is `cI` with the targets of `later` merged into it in that order:
a later attach adds no entry and does not replace the record, it merges its
targets into it. -/
theorem filter_index_priority (P : Decls matcherType targetMatcher σ τ Err)
    (ord : rangeOrder matcherType targetMatcher) (f : taskFilter matcherType targetMatcher)
    (tasks : List (taskAnnotated σ τ)) (out : filterResult σ τ Err) (hv : ord.valid)
    (hw : f.wellFormed) (hf : fresh tasks) (h : taskFilter.filter P ord f tasks = some out)
    (A : matcherType) (before after : List matcherType)
    (hA : P.matcherOrders = before ++ A :: after)
    (ms : List targetMatcher) (hms : (A, ms) ∈ f.matchers) (i : Nat) (m : targetMatcher)
    (hm : ms[i]? = some m) (t k : Int) (cI : matchedContainer τ)
    (hbefore : ∀ v ∈ invocations P tasks f.matchers, v.tpe ∈ before →
      ∀ c ∈ v.res.Containers, ¬ (c.TaskIndex = t ∧ c.ContainerIndex = k))
    (hlower : ∀ j, j < i → ∀ mj, ms[j]? = some mj →
      ∀ c ∈ (P.matchContainers tasks mj j).1.Containers,
        ¬ (c.TaskIndex = t ∧ c.ContainerIndex = k))
    (hfirst : (P.matchContainers tasks m i).1.Containers.find?
      (fun c => decide (c.TaskIndex = t ∧ c.ContainerIndex = k)) = some cI) :
    ∃ later,
      (mergeOrder P f tasks).filter (fun c => decide (c.TaskIndex = t ∧ c.ContainerIndex = k))
        = cI :: later ∧
      out.record t k = some (mergeAll cI later) := by
  apply record_of_first_type P ord f tasks out hv hw hf h A before after hA t k cI hbefore
  rw [resultsOfType_lookup P tasks f.matchers hw A, lookup_of_mem f.matchers hw A ms hms]
  apply find?_enumFrom_results P tasks _ cI ms 0 i m hm
  · intro j hj mj hmj c hc
    rw [Nat.zero_add] at hc
    simpa using hlower j hj mj hmj c hc
  · rw [Nat.zero_add]
    exact hfirst

/-- Witness for C16 (amended): of three name matchers the one with index 1 is
the first to match (task 1, container 0); index 2 and the port matcher match it
too; the record is the one of index 1 with the targets of index 2 and of the
port matcher merged in. -/
theorem filter_index_priority_witness :
    (rangeOrder.asListed exType (matchResult (List String) × List String)).valid ∧
      exSecond.wellFormed ∧ fresh exTasks ∧
      taskFilter.filter exDecls (rangeOrder.asListed _ _) exSecond exTasks = some exSecondOut ∧
      exSecondOut.record 1 0 = some ⟨1, 0, ["name-1", "name-2", "port"]⟩ ∧
      ∃ later,
        (mergeOrder exDecls exSecond exTasks).filter
            (fun c => decide (c.TaskIndex = 1 ∧ c.ContainerIndex = 0))
          = ⟨1, 0, ["name-1"]⟩ :: later ∧
        exSecondOut.record 1 0 = some (mergeAll ⟨1, 0, ["name-1"]⟩ later) :=
  ⟨asListed_valid, by unfold taskFilter.wellFormed; decide, by unfold fresh; decide, by decide,
    by decide,
    filter_index_priority exDecls (rangeOrder.asListed _ _) exSecond exTasks exSecondOut
      asListed_valid (by unfold taskFilter.wellFormed; decide) (by unfold fresh; decide)
      (by decide) exType.name [] [exType.port, exType.label] rfl
      [(⟨[0], [⟨0, 1, ["name-0"]⟩]⟩, []), (⟨[1], [⟨1, 0, ["name-1"]⟩]⟩, []),
        (⟨[1], [⟨1, 0, ["name-2"]⟩]⟩, [])]
      (by decide) 1 (⟨[1], [⟨1, 0, ["name-1"]⟩]⟩, []) rfl 1 0 ⟨1, 0, ["name-1"]⟩
      (by decide)
      (by
        intro j hj mj hmj c hc
        have hj0 : j = 0 := by omega
        subst hj0
        simp only [List.getElem?_cons_zero, Option.some.injEq] at hmj
        subst hmj
        simp only [exDecls, List.mem_singleton] at hc
        subst hc
        decide)
      (by decide)⟩

/-- C17, index safety: if every container of every result names a task of the
list (`0 <= TaskIndex < len(tasks)`), the task lookup of the attach loop
(line 66) and the one of the sort loop (line 80) both stay in range and the
call returns; if a container of some result has a `TaskIndex` outside that
range, the lookup of the attach loop fails and the call panics. The priority
list is total over the matcher types, as the spec has it. -/
theorem filter_index_safety (P : Decls matcherType targetMatcher σ τ Err)
    (ord : rangeOrder matcherType targetMatcher) (f : taskFilter matcherType targetMatcher)
    (tasks : List (taskAnnotated σ τ)) (hv : ord.valid) (hO : P.ordersTotal) :
    ((∀ v ∈ invocations P tasks f.matchers, ∀ c ∈ v.res.Containers,
        0 ≤ c.TaskIndex ∧ c.TaskIndex < (tasks.length : Int)) →
      ∃ st, mergePhase P ord f tasks = some st ∧ (sortPhase ord st).isSome ∧
        (taskFilter.filter P ord f tasks).isSome) ∧
    ((∃ v ∈ invocations P tasks f.matchers, ∃ c ∈ v.res.Containers,
        ¬ (0 ≤ c.TaskIndex ∧ c.TaskIndex < (tasks.length : Int))) →
      mergePhase P ord f tasks = none ∧ taskFilter.filter P ord f tasks = none) := by
  constructor
  · intro hall
    have hin : inBounds tasks.length (attachSeq P ord f tasks) := by
      intro c hc
      obtain ⟨v, hv1, _, hv3⟩ := (mem_attachSeq P ord f tasks hv c).1 hc
      exact hall v hv1 c hv3
    obtain ⟨st, hst⟩ := Option.isSome_iff_exists.1
      (attachContainers_isSome _ (⟨[], tasks⟩ : mergeState σ τ) hin)
    have hmerge : mergePhase P ord f tasks = some st := by
      rw [mergePhase_eq]
      exact hst
    have hsome := filter_isSome P ord f tasks hv hin
    refine ⟨st, hmerge, ?_, hsome⟩
    rw [filter_eq_phases, hmerge, Option.some_bind] at hsome
    cases hsort : sortPhase ord st with
    | none => rw [hsort] at hsome; simp at hsome
    | some r => rfl
  · rintro ⟨v, hv1, c, hc, hout⟩
    have hcs : c ∈ attachSeq P ord f tasks :=
      (mem_attachSeq P ord f tasks hv c).2 ⟨v, hv1, hO.2 v.tpe, hc⟩
    have hmerge : mergePhase P ord f tasks = none := by
      rw [mergePhase_eq]
      cases hatt : attachContainers (attachSeq P ord f tasks) (⟨[], tasks⟩ : mergeState σ τ) with
      | none => rfl
      | some st =>
        obtain ⟨hb, _⟩ := attachContainers_some _ _ st hatt
        exact absurd (hb c hcs) hout
    refine ⟨hmerge, ?_⟩
    rw [filter_eq_phases, hmerge]
    rfl

/-- Witness for C17: the worked configuration stays in range and returns; a
port matcher naming a task at index 2 of a two-task list makes the attach loop
fail. -/
theorem filter_index_safety_witness :
    (rangeOrder.asListed exType (matchResult (List String) × List String)).valid ∧
      exDecls.ordersTotal ∧
      (∀ v ∈ invocations exDecls exTasks exFilter.matchers, ∀ c ∈ v.res.Containers,
        0 ≤ c.TaskIndex ∧ c.TaskIndex < (exTasks.length : Int)) ∧
      (∃ st, mergePhase exDecls (rangeOrder.asListed _ _) exFilter exTasks = some st ∧
        (sortPhase (rangeOrder.asListed exType (matchResult (List String) × List String)) st).isSome ∧
        (taskFilter.filter exDecls (rangeOrder.asListed _ _) exFilter exTasks).isSome) ∧
      (∃ v ∈ invocations exDecls exTasks exOutOfRange.matchers, ∃ c ∈ v.res.Containers,
        ¬ (0 ≤ c.TaskIndex ∧ c.TaskIndex < (exTasks.length : Int))) ∧
      mergePhase exDecls (rangeOrder.asListed _ _) exOutOfRange exTasks = none ∧
      taskFilter.filter exDecls (rangeOrder.asListed _ _) exOutOfRange exTasks = none :=
  ⟨asListed_valid, ⟨by decide, fun t => by cases t <;> decide⟩, by decide,
    (filter_index_safety exDecls (rangeOrder.asListed _ _) exFilter exTasks asListed_valid
      ⟨by decide, fun t => by cases t <;> decide⟩).1 (by decide),
    by decide,
    (filter_index_safety exDecls (rangeOrder.asListed _ _) exOutOfRange exTasks asListed_valid
      ⟨by decide, fun t => by cases t <;> decide⟩).2 (by decide)⟩

end properties

end ecsobserver
